import Mathlib

/-!
# Verification of the seasonal billing-phase scheduler

A shallow embedding, in Lean 4, of the phase-construction core of the
Stripe-Schedule-Onboarding repository: the UTC month-boundary utilities
(`src/lib/date/utcMonth.ts`), the service-area resolver
(`src/lib/serviceAreas/serviceAreas.ts`), the season-window derivation
(`src/lib/season/windows.ts`), the signup phase builder and compact-rule
decoder (`src/lib/stripe/phaseBuilder.ts`), the compact-rule encoder
(`create-subscription/_shared.ts`), and the schedule reconciler
(`src/lib/stripe/scheduleAttach.ts`).

JavaScript semantics are modelled as follows: numbers that hold epoch
seconds, day counts, and sentinel values are embedded as `Int` (all the
modelled code keeps them integral); `Date` UTC calendar arithmetic is the
proleptic Gregorian calendar of ECMA-262, including the mapping of year
arguments 0..99 to 1900..1999 in `Date.UTC`; strings are Lean `String`s,
with the JavaScript operations re-implemented over their character lists
(ASCII fragment, which covers every string the repository manipulates);
`undefined` is `Option.none`; fallible operations return `Option`/`Except`.
-/

/-! ## Calendar model (ECMA-262 UTC / proleptic Gregorian)

Epoch days are days since 1970-01-01.  `daysFromCivil` is the closed-form
day number of a civil date; `yearOf`/`monthOf`/`domOf` invert it by the
classical era / century / quadrennium / year decomposition.  The round-trip
theorem `daysFromCivil_civil` (later in this file) certifies that the two
directions agree, so the pair is a correct model of `Date.prototype.getUTC*`.
-/

/-- Days since 1970-01-01 of the civil date `(y, m, d)`, `m ∈ 1..12`
(proleptic Gregorian, closed form over the 400-year era). -/
def daysFromCivil (y m d : Int) : Int :=
  let y' := if m ≤ 2 then y - 1 else y
  let era := y' / 400
  let yoe := y' - era * 400
  let mp := if m > 2 then m - 3 else m + 9
  let doy := (153 * mp + 2) / 5 + d - 1
  let doe := yoe * 365 + yoe / 4 - yoe / 100 + doy
  era * 146097 + doe - 719468

/-- 400-year era index of an epoch day (eras are aligned to 0000-03-01). -/
def eraOf (z : Int) : Int := (z + 719468) / 146097

/-- Day within the 400-year era, in `[0, 146097)`. -/
def doeOf (z : Int) : Int := (z + 719468) % 146097

/-- Century index within the era (the last century carries the era's leap day). -/
def cenOf (z : Int) : Int := min (doeOf z / 36524) 3

/-- Day within the century. -/
def dcenOf (z : Int) : Int := doeOf z - 36524 * cenOf z

/-- Quadrennium index within the century. -/
def quadOf (z : Int) : Int := dcenOf z / 1461

/-- Day within the quadrennium. -/
def rquadOf (z : Int) : Int := dcenOf z - 1461 * quadOf z

/-- Year index within the quadrennium (the fourth year carries the leap day). -/
def yqOf (z : Int) : Int := min (rquadOf z / 365) 3

/-- Year of era, `[0, 399]`, in the March-based frame. -/
def yoeOf (z : Int) : Int := 100 * cenOf z + 4 * quadOf z + yqOf z

/-- Day of the March-based year. -/
def doyOf (z : Int) : Int := rquadOf z - 365 * yqOf z

/-- Month index in the March-based frame (`0` = March .. `11` = February). -/
def mpOf (z : Int) : Int := (5 * doyOf z + 2) / 153

/-- Civil day of month, `1..31`, of an epoch day. -/
def domOf (z : Int) : Int := doyOf z - (153 * mpOf z + 2) / 5 + 1

/-- Civil month, `1..12`, of an epoch day. -/
def monthOf (z : Int) : Int := mpOf z + (if mpOf z < 10 then 3 else -9)

/-- Civil year of an epoch day. -/
def yearOf (z : Int) : Int :=
  yoeOf z + 400 * eraOf z + (if monthOf z ≤ 2 then 1 else 0)

/-- ECMA-262 `MakeFullYear`: `Date.UTC` maps year arguments 0..99 to 1900..1999. -/
def jsMakeFullYear (y : Int) : Int := if 0 ≤ y ∧ y ≤ 99 then 1900 + y else y

/-- Epoch day of `Date.UTC(y, m0, d)` (month argument is 0-based and is
normalised into the year as ECMA-262 `MakeDay` prescribes). -/
def jsDateUTCdays (y m0 d : Int) : Int :=
  daysFromCivil (jsMakeFullYear y + m0 / 12) (m0 % 12 + 1) d

/-- Epoch seconds of `Date.UTC(y, m0, d, 0, 0, 0) / 1000`. -/
def jsDateUTCsec (y m0 d : Int) : Int := 86400 * jsDateUTCdays y m0 d

/-- `new Date(sec * 1000).getUTCFullYear()`. -/
def jsUTCYear (sec : Int) : Int := yearOf (sec / 86400)

/-- `new Date(sec * 1000).getUTCMonth()` (0-based). -/
def jsUTCMonth0 (sec : Int) : Int := monthOf (sec / 86400) - 1

/-! Source: `src/lib/date/utcMonth.ts`. -/

/-- `startOfMonthUtcEpoch(year, month0)`: first instant (epoch seconds) of the
given UTC month: `Math.floor(Date.UTC(year, month0, 1) / 1000)`. -/
def startOfMonthUtcEpoch (year month0 : Int) : Int := jsDateUTCsec year month0 1

/-- `nextMonthFirstEpoch(nowSec)`: first instant of the month after the month
containing `nowSec`. -/
def nextMonthFirstEpoch (nowSec : Int) : Int :=
  startOfMonthUtcEpoch (jsUTCYear nowSec) (jsUTCMonth0 nowSec + 1)

/-- The `while (cur < maxEnd)` loop of `monthStartsBetween` (and of the
reconciler's inline month-edge enumeration), embedded with explicit fuel.
The fuel passed by the wrappers provably exceeds the number of iterations
the JavaScript loop performs (each step strictly increases `cur`, see
`lt_nextMonthFirstEpoch`), so the embedding computes the same list. -/
def monthStartsBetweenAux (maxEnd : Int) : Nat → Int → List Int
  | 0, _ => []
  | n + 1, cur =>
      if cur < maxEnd then cur :: monthStartsBetweenAux maxEnd n (nextMonthFirstEpoch cur)
      else []

/-- The `first` computation of `monthStartsBetween`: the month start containing
`minStart` if it is not before `minStart`, else the next month start. -/
def monthStartsFirst (minStart : Int) : Int :=
  let mStart := startOfMonthUtcEpoch (jsUTCYear minStart) (jsUTCMonth0 minStart)
  if mStart < minStart then nextMonthFirstEpoch minStart else mStart

/-- `monthStartsBetween(minStart, maxEnd)`: ascending UTC month starts from the
first month start at or after `minStart`, strictly below `maxEnd`. -/
def monthStartsBetween (minStart maxEnd : Int) : List Int :=
  monthStartsBetweenAux maxEnd ((maxEnd - monthStartsFirst minStart).toNat + 1)
    (monthStartsFirst minStart)

/-- `monthsBetweenEpochs(startEpoch, endEpoch)`: the number of entries
`monthStartsBetween` returns. -/
def monthsBetweenEpochs (startEpoch endEpoch : Int) : Int :=
  ((monthStartsBetween startEpoch endEpoch).length : Int)

/-! ## JavaScript string operations (ASCII fragment)

Lean's built-in `String.trim`/`toLower`/`startsWith` are byte-position based
and do not reduce in the kernel, so the JavaScript operations are modelled
over the underlying character lists.  All strings the repository manipulates
(city names, zip codes, metadata keys, JSON) are ASCII, where these agree
with the ECMAScript operations. -/

/-- ASCII whitespace, the fragment of the ECMAScript `TrimString` set that
occurs in the modelled data. -/
def jsIsSpace (c : Char) : Bool := c == ' ' || c == '\t' || c == '\n' || c == '\r'

/-- `String.prototype.trim` (ASCII fragment). -/
def jsTrim (s : String) : String :=
  ⟨((s.data.dropWhile jsIsSpace).reverse.dropWhile jsIsSpace).reverse⟩

/-- Lower-case one ASCII character. -/
def jsLowerChar (c : Char) : Char :=
  if 'A' ≤ c ∧ c ≤ 'Z' then Char.ofNat (c.toNat + 32) else c

/-- `String.prototype.toLowerCase` (ASCII fragment). -/
def jsToLower (s : String) : String := ⟨s.data.map jsLowerChar⟩

/-- `String.prototype.startsWith`. -/
def jsStartsWith (s pre : String) : Bool := pre.data.isPrefixOf s.data

/-- `String.prototype.slice(0, n)` for non-negative `n`. -/
def jsTake (s : String) (n : Nat) : String := ⟨s.data.take n⟩

/-! ## Service-Area Resolver

Source: `src/lib/serviceAreas/serviceAreas.ts`. -/

/-- A seasonal window `[startUTC, endUTC)` in epoch seconds. -/
structure SeasonRange where
  startUTC : Int
  endUTC : Int
deriving DecidableEq

/-- `AreaRule`: static service-area configuration.  `baseDay`/`secondaryDay`
are weekdays (Sun = 0). -/
structure AreaRule where
  city : Option String := none
  zipPrefix : Option String := none
  baseDay : Nat
  secondaryDay : Option Nat := none
  season : Option SeasonRange := none
  note : Option String := none
deriving DecidableEq

/-- A postal address as consumed by the resolver. -/
structure Address where
  line1 : String
  city : String
  state : String
  zip : String
deriving DecidableEq

/-- `AddressRuleResult`: the outcome of matching an address against the table. -/
structure AddressRuleResult where
  baseDay : Nat
  secondaryDay : Option Nat := none
  season : Option SeasonRange := none
  matchedBy : String
  ruleNote : Option String := none
deriving DecidableEq

/-- The static rule table `AREA_RULES` (weekday constants `DOW` inlined:
Mon = 1, Tue = 2, Wed = 3, Thu = 4, Fri = 5, Sat = 6). -/
def AREA_RULES : List AreaRule :=
  [ { city := some "Topsail Beach", baseDay := 1, secondaryDay := some 4,
      season := some ⟨jsDateUTCsec 2025 4 26, jsDateUTCsec 2025 8 1⟩ },
    { city := some "Surf City", baseDay := 2, secondaryDay := some 5,
      season := some ⟨jsDateUTCsec 2025 4 1, jsDateUTCsec 2025 8 30⟩ },
    { city := some "North Topsail Beach", baseDay := 3, secondaryDay := some 6,
      season := some ⟨jsDateUTCsec 2025 4 2, jsDateUTCsec 2025 9 26⟩ },
    { city := some "Wilmington", zipPrefix := some "28401", baseDay := 2 },
    { zipPrefix := some "284", baseDay := 2 } ]

/-- `norm`: trim and lower-case, the resolver's comparison normalisation. -/
def norm (s : String) : String := jsToLower (jsTrim s)

/-- The resolver's city test `r.city && norm(r.city) === city` (a missing or
empty `city` field is falsy in JavaScript). -/
def cityMatches (city : String) (r : AreaRule) : Bool :=
  match r.city with
  | some c => (!(c == "")) && (norm c == city)
  | none => false

/-- The resolver's zip normalisation `(z || "").trim().slice(0, 5)`. -/
def cleanZipStr (z : String) : String := jsTake (jsTrim z) 5

/-- The resolver's zip test `r.zipPrefix && zip.startsWith(r.zipPrefix)`. -/
def zipMatches (zip : String) (r : AreaRule) : Bool :=
  match r.zipPrefix with
  | some p => (!(p == "")) && jsStartsWith zip p
  | none => false

/-- Length of a rule's zip prefix (0 when absent). -/
def zipLen (r : AreaRule) : Nat := (r.zipPrefix.getD "").data.length

/-- The sort order of the resolver's `.sort((a, b) => b.zipPrefix.length -
a.zipPrefix.length)`: `a` may precede `b` iff `a`'s prefix is at least as
long.  A stable sort by this order models the (stable) JavaScript sort. -/
def zipPrefLonger (a b : AreaRule) : Prop := zipLen b ≤ zipLen a

instance : DecidableRel zipPrefLonger :=
  fun a b => inferInstanceAs (Decidable (zipLen b ≤ zipLen a))

instance : IsTotal AreaRule zipPrefLonger :=
  ⟨fun a b => (Nat.le_total (zipLen b) (zipLen a)).imp id id⟩

instance : IsTrans AreaRule zipPrefLonger :=
  ⟨fun _ _ _ h1 h2 => Nat.le_trans h2 h1⟩

/-- `resolveRuleForAddress(addr, rules = AREA_RULES)`: city match first
(first matching rule in table order), then longest zip-prefix match,
else `null`. -/
def resolveRuleForAddress (addr : Address) (rules : List AreaRule := AREA_RULES) :
    Option AddressRuleResult :=
  let city := norm addr.city
  match rules.find? (cityMatches city) with
  | some byCity =>
      some { baseDay := byCity.baseDay, secondaryDay := byCity.secondaryDay,
             season := byCity.season, matchedBy := "city", ruleNote := byCity.note }
  | none =>
      let zip := cleanZipStr addr.zip
      match (List.insertionSort zipPrefLonger (rules.filter (zipMatches zip))).head? with
      | some byZip =>
          some { baseDay := byZip.baseDay, secondaryDay := byZip.secondaryDay,
                 season := byZip.season, matchedBy := "zipPrefix", ruleNote := byZip.note }
      | none => none

/-! ## Season windows

Source: `src/lib/season/windows.ts`. -/

/-- A seasonal window `[start, end)`; the source's `end` field is embedded as
`stop` (`end` is a Lean keyword). -/
structure SeasonWindow where
  start : Int
  stop : Int
deriving DecidableEq

/-- A duck-typed service record (`Record<string, unknown>`): only the fields
the modelled code reads, each possibly absent. -/
structure JsAddress where
  line1 : Option String := none
  line2 : Option String := none
  city : Option String := none
  state : Option String := none
  postalCode : Option String := none
  zip : Option String := none
deriving DecidableEq

/-- JavaScript `String(x)` on a possibly-undefined string. -/
def jsStringOfOpt (o : Option String) : String := o.getD "undefined"

/-- `seasonWindowsForAddress(addr, refEpoch)`: resolve the address; return its
season window when one is configured and has not ended at `refEpoch`. -/
def seasonWindowsForAddress (addr : JsAddress) (refEpoch : Int) : List SeasonWindow :=
  let address : Address :=
    { line1 := (addr.line1).getD "", city := (addr.city).getD "",
      state := (addr.state).getD "",
      zip := jsStringOfOpt (addr.postalCode <|> addr.zip) }
  match resolveRuleForAddress address with
  | none => []
  | some rule =>
      match rule.season with
      | none => []
      | some se => if refEpoch < se.endUTC then [⟨se.startUTC, se.endUTC⟩] else []

/-! ## JSON (integer fragment)

A model of `JSON.parse` / `JSON.stringify` sufficient for the compact-rule
metadata: values are null, booleans, integers, plain ASCII strings (no
escape sequences occur in the modelled data; a backslash makes the parse
fail, conservatively), arrays and objects.  The parser requires the whole
input to be consumed, as `JSON.parse` does. -/

inductive Json where
  | null : Json
  | bool (b : Bool) : Json
  | num (n : Int) : Json
  | str (s : String) : Json
  | arr (elems : List Json) : Json
  | obj (fields : List (String × Json)) : Json

/-- JSON insignificant whitespace. -/
def jsonWs (c : Char) : Bool := c == ' ' || c == '\t' || c == '\n' || c == '\r'

/-- Decimal digit test. -/
def isDigitCh (c : Char) : Bool := '0' ≤ c && c ≤ '9'

/-- Value of a digit character. -/
def digitVal (c : Char) : Nat := c.toNat - 48

/-- Parse a JSON string body after the opening quote; no escapes supported. -/
def parseStrBody : List Char → List Char → Option (String × List Char)
  | [], _ => none
  | c :: rest, acc =>
      if c == '"' then some (⟨acc.reverse⟩, rest)
      else if c == '\\' then none
      else parseStrBody rest (c :: acc)

/-- Digits of a natural number, most significant first (`fuel`-bounded). -/
def natDigits : Nat → Nat → List Char
  | 0, _ => []
  | fuel + 1, n =>
      if n == 0 then []
      else natDigits fuel (n / 10) ++ [Char.ofNat (48 + n % 10)]

/-- Decimal representation of a natural number. -/
def natDecimalStr (n : Nat) : String :=
  if n == 0 then "0" else ⟨natDigits (n + 1) n⟩

/-- Decimal representation of an integer, as JavaScript prints integral
numbers. -/
def intDecimalStr (i : Int) : String :=
  if i < 0 then "-" ++ natDecimalStr i.natAbs else natDecimalStr i.natAbs

/-- Parse an unsigned decimal integer (longest digit run). -/
def parseDigits (cs : List Char) : Option (Nat × List Char) :=
  let ds := cs.takeWhile isDigitCh
  let rest := cs.drop ds.length
  if ds.isEmpty then none
  else some (ds.foldl (fun acc c => acc * 10 + digitVal c) 0, rest)

/-- Parse a JSON number (integer fragment: an optional minus and digits; a
following `.`, `e` or `E` makes the parse fail, conservatively). -/
def parseJsonNum (cs : List Char) : Option (Int × List Char) :=
  let signed := cs.head? == some '-'
  let cs' := if signed then cs.drop 1 else cs
  match parseDigits cs' with
  | none => none
  | some (n, rest) =>
      match rest.head? with
      | some c => if c == '.' || c == 'e' || c == 'E' then none
                  else some (if signed then -(n : Int) else (n : Int), rest)
      | none => some (if signed then -(n : Int) else (n : Int), rest)

/-- Check that `lit` is a prefix of `cs` and return the remainder. -/
def parseLit (lit : List Char) (cs : List Char) : Option (List Char) :=
  if lit.isPrefixOf cs then some (cs.drop lit.length) else none

mutual

/-- Parse one JSON value (fuel-bounded recursive descent). -/
def parseJsonVal : Nat → List Char → Option (Json × List Char)
  | 0, _ => none
  | fuel + 1, cs =>
      let cs := cs.dropWhile jsonWs
      match cs with
      | [] => none
      | c :: rest =>
          if c == '"' then
            (parseStrBody rest []).map (fun p => (Json.str p.1, p.2))
          else if c == '[' then
            let rest' := rest.dropWhile jsonWs
            if rest'.head? == some ']' then some (Json.arr [], rest'.drop 1)
            else
              match parseJsonVal fuel rest with
              | none => none
              | some (v, r) => parseJsonArrTail fuel r [v]
          else if c == '{' then
            let rest' := rest.dropWhile jsonWs
            if rest'.head? == some '}' then some (Json.obj [], rest'.drop 1)
            else
              match parseJsonField fuel rest with
              | none => none
              | some (f, r) => parseJsonObjTail fuel r [f]
          else if c == 't' then
            (parseLit ['t', 'r', 'u', 'e'] cs).map (fun r => (Json.bool true, r))
          else if c == 'f' then
            (parseLit ['f', 'a', 'l', 's', 'e'] cs).map (fun r => (Json.bool false, r))
          else if c == 'n' then
            (parseLit ['n', 'u', 'l', 'l'] cs).map (fun r => (Json.null, r))
          else
            (parseJsonNum cs).map (fun p => (Json.num p.1, p.2))

/-- Parse the rest of a JSON array after its first element. -/
def parseJsonArrTail : Nat → List Char → List Json → Option (Json × List Char)
  | 0, _, _ => none
  | fuel + 1, cs, acc =>
      let cs := cs.dropWhile jsonWs
      match cs with
      | ']' :: rest => some (Json.arr acc.reverse, rest)
      | ',' :: rest =>
          match parseJsonVal fuel rest with
          | none => none
          | some (v, r) => parseJsonArrTail fuel r (v :: acc)
      | _ => none

/-- Parse one `"key": value` field of a JSON object. -/
def parseJsonField : Nat → List Char → Option ((String × Json) × List Char)
  | 0, _ => none
  | fuel + 1, cs =>
      let cs := cs.dropWhile jsonWs
      match cs with
      | '"' :: rest =>
          match parseStrBody rest [] with
          | none => none
          | some (k, r) =>
              let r := r.dropWhile jsonWs
              match r with
              | ':' :: r2 =>
                  match parseJsonVal fuel r2 with
                  | none => none
                  | some (v, r3) => some ((k, v), r3)
              | _ => none
      | _ => none

/-- Parse the rest of a JSON object after its first field. -/
def parseJsonObjTail : Nat → List Char → List (String × Json) →
    Option (Json × List Char)
  | 0, _, _ => none
  | fuel + 1, cs, acc =>
      let cs := cs.dropWhile jsonWs
      match cs with
      | '}' :: rest => some (Json.obj acc.reverse, rest)
      | ',' :: rest =>
          match parseJsonField fuel rest with
          | none => none
          | some (f, r) => parseJsonObjTail fuel r (f :: acc)
      | _ => none

end

/-- `JSON.parse`: parse one value and require only whitespace to remain.
The fuel `2 * length + 2` strictly dominates the recursion depth (every
recursive call follows the consumption of at least one input character). -/
def jsonParse (s : String) : Option Json :=
  match parseJsonVal (2 * s.data.length + 2) s.data with
  | some (v, rest) => if (rest.dropWhile jsonWs).isEmpty then some v else none
  | none => none

/-- Look up a field of a JSON object. -/
def jsonField (j : Json) (k : String) : Option Json :=
  match j with
  | Json.obj fs => (fs.find? (fun f => f.1 == k)).map (·.2)
  | _ => none

/-! ## Compact rule codec

Decoder source: `src/lib/stripe/phaseBuilder.ts` (`readAddrRulesFromMeta`);
encoder source: `src/app/api/stripe/create-subscription/_shared.ts`
(`chunkForMetadata` and the `addr_rules` JSON it is applied to). -/

/-- `AddrRuleCompact`: `{ c: city, z: zip, b: baseDay, s: secondaryDay|-1,
ss: startUTC|-1, se: endUTC|-1 }`. -/
structure AddrRuleCompact where
  c : String
  z : String
  b : Int
  s : Int
  ss : Int
  se : Int
deriving DecidableEq

/-- `JSON.stringify` of a plain ASCII string (no characters needing escapes
occur in the modelled data). -/
def quoteStr (s : String) : String := ⟨'"' :: (s.data ++ ['"'])⟩

/-- `JSON.stringify` of one compact rule (key order is the object-literal
insertion order `c, z, b, s, ss, se`). -/
def stringifyAddrRule (r : AddrRuleCompact) : String :=
  ⟨['{']⟩ ++ "\"c\":" ++ quoteStr r.c ++ ",\"z\":" ++ quoteStr r.z ++
    ",\"b\":" ++ intDecimalStr r.b ++ ",\"s\":" ++ intDecimalStr r.s ++
    ",\"ss\":" ++ intDecimalStr r.ss ++ ",\"se\":" ++ intDecimalStr r.se ++ ⟨['}']⟩

/-- `JSON.stringify` of a compact rule array. -/
def stringifyAddrRules (rs : List AddrRuleCompact) : String :=
  ⟨['[']⟩ ++ joinComma (rs.map stringifyAddrRule) ++ ⟨[']']⟩
where
  /-- Comma-join, as array serialization does. -/
  joinComma : List String → String
    | [] => ""
    | [s] => s
    | s :: rest => s ++ "," ++ joinComma rest

/-- The chunk loop of `chunkForMetadata`: successive `perFieldMax`-character
slices keyed `prefix_1, prefix_2, …` (fuel-bounded; the callers' positive
`perFieldMax` makes each step consume input, so the fuel is never exhausted). -/
def chunkGo (pfx : String) (perFieldMax : Nat) : Nat → Nat → List Char →
    List (String × String)
  | 0, _, _ => []
  | _, _, [] => []
  | fuel + 1, i, cs =>
      (pfx ++ "_" ++ natDecimalStr i, (⟨cs.take perFieldMax⟩ : String)) ::
        chunkGo pfx perFieldMax fuel (i + 1) (cs.drop perFieldMax)

/-- `chunkForMetadata(prefix, json, perFieldMax = 480)`: a single unsuffixed
field when the JSON fits, else suffixed slices (insertion order preserved,
as `Object.keys` order is for these keys). -/
def chunkForMetadata (pfx : String) (json : String) (perFieldMax : Nat := 480) :
    List (String × String) :=
  if json.data.length ≤ perFieldMax then [(pfx, json)]
  else chunkGo pfx perFieldMax (json.data.length + 1) 1 json.data

/-- The `addr_rules` metadata the create-subscription route stores:
`chunkForMetadata("addr_rules", JSON.stringify(addrRules))`. -/
def encodeAddrRulesMeta (rs : List AddrRuleCompact) : List (String × String) :=
  chunkForMetadata "addr_rules" (stringifyAddrRules rs)

/-- Metadata (string-map) lookup: first binding of the key. -/
def metaGet (meta : List (String × String)) (k : String) : Option String :=
  (meta.find? (fun kv => kv.1 == k)).map (·.2)

/-- Object-spread update `{...meta, k: v}`: the key keeps its position when
present (its value replaced), else the binding is appended.  JavaScript
object keys are unique, so replacing the first occurrence is exact. -/
def metaSet : List (String × String) → String → String → List (String × String)
  | [], k, v => [(k, v)]
  | kv :: rest, k, v =>
      if kv.1 == k then (k, v) :: rest else kv :: metaSet rest k v

/-- The key pattern `/^addr_rules_\d+$/`. -/
def isAddrRulesChunkKey (k : String) : Bool :=
  (k.data.take 11 == "addr_rules_".data) &&
    (!(k.data.drop 11).isEmpty && (k.data.drop 11).all isDigitCh)

/-- Split a character list on underscores (JavaScript `split("_")`). -/
def splitUnderscore : List Char → List (List Char)
  | [] => [[]]
  | c :: rest =>
      match splitUnderscore rest with
      | g :: gs => if c == '_' then [] :: g :: gs else (c :: g) :: gs
      | [] => [[c]]

/-- The decoder's chunk-key sort rank: the unsuffixed key first, then by
`parseInt(key.split("_")[2] || "0", 10)`. -/
def addrRulesKeyRank (k : String) : Int :=
  if k == "addr_rules" then -1
  else
    match (splitUnderscore k.data).get? 2 with
    | some ds => match parseDigits ds with
                 | some (n, _) => (n : Int)
                 | none => 0
    | none => 0

/-- Sort order for decoder keys (stable sort models the JavaScript sort with
the source's comparator). -/
def addrRulesKeyLe (a b : String) : Prop := addrRulesKeyRank a ≤ addrRulesKeyRank b

instance : DecidableRel addrRulesKeyLe :=
  fun a b => inferInstanceAs (Decidable (addrRulesKeyRank a ≤ addrRulesKeyRank b))

/-- The decoder's per-element coercion of the `c`/`z` fields (a missing or
non-string field is modelled as `""`; none occurs in well-formed data). -/
def jsGetStr (j : Json) (k : String) : String :=
  match jsonField j k with
  | some (Json.str s) => s
  | _ => ""

/-- The decoder's numeric coercion `typeof x === "number" ? x : Number(x)`
(string digits are coerced; `NaN` outcomes, which occur only for malformed
data, are modelled as 0). -/
def jsGetNum (j : Json) (k : String) : Int :=
  match jsonField j k with
  | some (Json.num n) => n
  | some (Json.str s) =>
      match parseJsonNum s.data with
      | some (n, rest) => if rest.isEmpty then n else 0
      | none => 0
  | _ => 0

/-- One decoded compact rule. -/
def coerceAddrRule (j : Json) : AddrRuleCompact :=
  { c := jsGetStr j "c", z := jsGetStr j "z", b := jsGetNum j "b",
    s := jsGetNum j "s", ss := jsGetNum j "ss", se := jsGetNum j "se" }

/-- `readAddrRulesFromMeta(meta)`: collect the `addr_rules` keys, sort them
(unsuffixed first, then by numeric suffix), `JSON.parse` each chunk on its
own, keep the arrays, and concatenate their coerced elements.  A chunk that
fails to parse, or parses to a non-array, is skipped silently. -/
def readAddrRulesFromMeta (meta : List (String × String)) : List AddrRuleCompact :=
  let keys := (meta.map (·.1)).filter
    (fun k => k == "addr_rules" || isAddrRulesChunkKey k)
  let sorted := List.insertionSort addrRulesKeyLe keys
  sorted.flatMap (fun k =>
    match metaGet meta k with
    | none => []
    | some v =>
        match jsonParse v with
        | some (Json.arr xs) => xs.map coerceAddrRule
        | _ => [])

/-! ## Timeline Builder and Phase Emitter

Source: `src/lib/stripe/phaseBuilder.ts`. -/

/-- A timeline slice; the source's `end` field is embedded as `stop`. -/
structure TimelineSlice where
  start : Int
  stop : Int
  seasonalActiveCount : Nat
deriving DecidableEq

/-- A reconciler segment `{ start, end, qty }`; `end` embedded as `stop`. -/
structure QtySlice where
  start : Int
  stop : Int
  qty : Nat
deriving DecidableEq

/-- Modelled from the spec: `src/lib/stripe/constants.ts` is not in the
snapshot; the spec (§4.4) and the source comments fix the look-ahead horizon
at 90 days (in seconds). -/
def NINETY_DAYS_SEC : Int := 90 * 86400

/-- One per-address seasonal selection (`selections[i].seasonal_2nd`). -/
structure Selection where
  seasonal_2nd : Bool := false
deriving DecidableEq

/-- A schedule-phase line item `{ price, quantity }`. -/
structure PhaseItem where
  price : String
  quantity : Nat
deriving DecidableEq

/-- `PhaseWithDuration`: a phase of the signup schedule; `duration` models the
optional `{ interval: "month", interval_count }` by its count. -/
structure PhaseWithDuration where
  end_date : Option Int := none
  duration : Option Int := none
  items : List PhaseItem := []
  proration_behavior : String := "create_prorations"
deriving DecidableEq

/-- Price references for the base and seasonal products. -/
structure PriceIds where
  base : String
  seasonal : String
deriving DecidableEq

/-- The window-gathering loop of `buildTimeline`: for each index with
`selections[i]?.seasonal_2nd` truthy, the windows of `services[i]`
(an index outside `selections` reads `undefined`, which is falsy). -/
def collectWindows (refEpoch : Int) :
    List JsAddress → List Selection → List SeasonWindow
  | [], _ => []
  | _ :: svcs, [] => collectWindows refEpoch svcs []
  | svc :: svcs, sel :: sels =>
      (if sel.seasonal_2nd then seasonWindowsForAddress svc refEpoch else []) ++
        collectWindows refEpoch svcs sels

/-- The slice-emission loop shared by the three timeline builders: for each
consecutive boundary pair with `start < end`, a slice counting the windows
satisfying `w.start <= start && w.end >= end`. -/
def slicesOfBoundaries (windows : List SeasonWindow) : List Int → List TimelineSlice
  | bStart :: bEnd :: rest =>
      (if bStart < bEnd then
        [{ start := bStart, stop := bEnd,
           seasonalActiveCount := (windows.filter (fun w =>
             decide (w.start ≤ bStart) && decide (bEnd ≤ w.stop))).length }]
      else []) ++ slicesOfBoundaries windows (bEnd :: rest)
  | _ => []

/-- Fold computing `Math.min(...windows.map(w => w.start))` over `w :: ws`. -/
def minStartOf (w : SeasonWindow) (ws : List SeasonWindow) : Int :=
  ws.foldl (fun acc x => min acc x.start) w.start

/-- Fold computing `Math.max(...windows.map(w => w.end))` over `w :: ws`. -/
def maxEndOf (w : SeasonWindow) (ws : List SeasonWindow) : Int :=
  ws.foldl (fun acc x => max acc x.stop) w.stop

/-- The loop of `setDedup`, carrying the set of values already seen. -/
def setDedupGo (seen : List Int) : List Int → List Int
  | [] => []
  | x :: xs =>
      if seen.contains x then setDedupGo seen xs
      else x :: setDedupGo (x :: seen) xs

/-- `Array.from(new Set(list))`: deduplicate keeping first occurrences. -/
def setDedup (l : List Int) : List Int := setDedupGo [] l

/-- The boundary set: raw window edges and month starts, deduplicated
(`new Set`, keeping first occurrences) and sorted ascending.  The stable
`insertionSort` models the JavaScript numeric sort. -/
def boundariesOf (monthEdges : List Int) (w : SeasonWindow) (ws : List SeasonWindow) :
    List Int :=
  List.insertionSort (· ≤ ·)
    (setDedup ((w :: ws).flatMap (fun x => [x.start, x.stop]) ++ monthEdges))

/-- The slicing body of `buildTimeline`, over the gathered window list:
empty windows give an empty timeline; otherwise slice on the union of window
edges and interior month starts. -/
def buildTimelineWindows (windows : List SeasonWindow) : List TimelineSlice :=
  match windows with
  | [] => []
  | w :: ws =>
      slicesOfBoundaries (w :: ws)
        (boundariesOf (monthStartsBetween (minStartOf w ws) (maxEndOf w ws)) w ws)

/-- `buildTimeline(services, selections, refEpoch)`. -/
def buildTimeline (services : List JsAddress) (selections : List Selection)
    (refEpoch : Int) : List TimelineSlice :=
  buildTimelineWindows (collectWindows refEpoch services selections)

/-- `timelineToPhases`: a phase per slice; a whole-months slice becomes a
month-count duration, otherwise an explicit end date.  (Defined in the
source but not called by `buildSignupPhases`.) -/
def timelineToPhases (timeline : List TimelineSlice) (baseQty : Nat)
    (priceIds : PriceIds) (prorationBehavior : String) : List PhaseWithDuration :=
  timeline.map (fun slice =>
    let items := [⟨priceIds.base, baseQty⟩] ++
      (if slice.seasonalActiveCount > 0 then
        [(⟨priceIds.seasonal, slice.seasonalActiveCount⟩ : PhaseItem)] else [])
    let months := monthsBetweenEpochs slice.start slice.stop
    if months > 0 then
      { duration := some months, items := items,
        proration_behavior := prorationBehavior }
    else
      { end_date := some slice.stop, items := items,
        proration_behavior := prorationBehavior })

/-- The `seasonalPreQty` reduction: the number of selected services one of
whose windows overlaps the pre-phase `[nowEpoch, nextFirst)`. -/
def seasonalPreQtyAux (nowEpoch nextFirst : Int) :
    List JsAddress → List Selection → Nat
  | [], _ => 0
  | _ :: svcs, [] => seasonalPreQtyAux nowEpoch nextFirst svcs []
  | svc :: svcs, sel :: sels =>
      (if sel.seasonal_2nd &&
          (seasonWindowsForAddress svc nowEpoch).any (fun w =>
            decide (w.start < nextFirst) && decide (nowEpoch < w.stop))
       then 1 else 0) + seasonalPreQtyAux nowEpoch nextFirst svcs sels

/-- The `stepMonths` helper: iterate `nextMonthFirstEpoch` `n` times. -/
def stepMonthsAux : Nat → Int → Int
  | 0, c => c
  | k + 1, c => stepMonthsAux k (nextMonthFirstEpoch c)

/-- `stepMonths(startSec, n)`. -/
def stepMonths (startSec : Int) (n : Int) : Int := stepMonthsAux n.toNat startSec

/-- The `cursorEnd` walk over the built phases: an explicit end date moves the
cursor there; a month duration steps that many months; an open-ended phase
steps one month. -/
def cursorEndOf (nextFirst : Int) (phases : List PhaseWithDuration) : Int :=
  phases.foldl (fun c p =>
    match p.end_date with
    | some e => e
    | none =>
        match p.duration with
        | some k => stepMonths c k
        | none => nextMonthFirstEpoch c) nextFirst

/-- The `earliestSeasonalStart` scan: the least window start at or after
`cursorEnd` among selected services. -/
def earliestSeasonalStartAux (nowEpoch cursorEnd : Int) :
    List JsAddress → List Selection → Option Int → Option Int
  | [], _, acc => acc
  | _ :: svcs, [], acc => earliestSeasonalStartAux nowEpoch cursorEnd svcs [] acc
  | svc :: svcs, sel :: sels, acc =>
      let acc' :=
        if sel.seasonal_2nd then
          (seasonWindowsForAddress svc nowEpoch).foldl (fun a w =>
            if cursorEnd ≤ w.start then
              match a with
              | none => some w.start
              | some e => if w.start < e then some w.start else some e
            else a) acc
        else acc
      earliestSeasonalStartAux nowEpoch cursorEnd svcs sels acc'

/-- `last && typeof last.end_date !== "number" && !last.duration`. -/
def lastIsOpenEnded (phases : List PhaseWithDuration) : Bool :=
  match phases.getLast? with
  | some p => decide (p.end_date = none) && decide (p.duration = none)
  | none => false

/-- The result record of `buildSignupPhases` (the `phases_idem` JSON hash,
which no modelled consumer reads, is not embedded). -/
structure SignupPhasesResult where
  phases : List PhaseWithDuration
  nextFirst : Int
  baseQty : Nat

/-- The open-ended base-only phase literal of `buildSignupPhases`. -/
def signupOpenPhase (priceIds : PriceIds) (pb : String) (baseQty : Nat) :
    PhaseWithDuration :=
  { items := [⟨priceIds.base, baseQty⟩], proration_behavior := pb }

/-- The pre-anchor stub phase literal of `buildSignupPhases`: explicit end
date at the anchor, base item, seasonal item when `seasonalPreQty > 0`. -/
def signupPrePhase (priceIds : PriceIds) (pb : String)
    (baseQty seasonalPreQty : Nat) (nextFirst : Int) : PhaseWithDuration :=
  { end_date := some nextFirst,
    items := [⟨priceIds.base, baseQty⟩] ++
      (if seasonalPreQty > 0 then
        [(⟨priceIds.seasonal, seasonalPreQty⟩ : PhaseItem)] else []),
    proration_behavior := pb }

/-- The per-slice phase literal of `buildSignupPhases`: explicit end date at
the slice end, base item, seasonal item when the slice count is positive. -/
def slicePhaseOf (priceIds : PriceIds) (pb : String) (baseQty : Nat)
    (slice : TimelineSlice) : PhaseWithDuration :=
  { end_date := some slice.stop,
    items := [⟨priceIds.base, baseQty⟩] ++
      (if slice.seasonalActiveCount > 0 then
        [(⟨priceIds.seasonal, slice.seasonalActiveCount⟩ : PhaseItem)] else []),
    proration_behavior := pb }

/-- `buildSignupPhases(opts)`: the signup phase list — the pre-anchor stub
(pushed, and later unshifted a second time, exactly as the source does),
the timeline slices starting within 90 days of the anchor (each with an
explicit end date), the open-ended base-only phase, the conditional extra
tail, and the final open-endedness guarantee. -/
def buildSignupPhases (services : List JsAddress) (selections : List Selection)
    (nowEpoch : Int) (priceIds : PriceIds) (prorationBehavior : String) :
    SignupPhasesResult :=
  let baseQty := services.length
  let nextFirst := nextMonthFirstEpoch nowEpoch
  let fullTimeline := buildTimeline services selections nowEpoch
  let timelineAfter := fullTimeline.filter (fun s =>
    decide (nextFirst ≤ s.start) && decide (s.start ≤ nextFirst + NINETY_DAYS_SEC))
  let seasonalPreQty := seasonalPreQtyAux nowEpoch nextFirst services selections
  let prePhase := signupPrePhase priceIds prorationBehavior baseQty seasonalPreQty nextFirst
  let openPhase := signupOpenPhase priceIds prorationBehavior baseQty
  let phases1 := if nowEpoch < nextFirst then [prePhase] else []
  let slicePhases := timelineAfter.filterMap (fun slice =>
    if nextFirst ≤ slice.start then
      some (slicePhaseOf priceIds prorationBehavior baseQty slice)
    else none)
  let phases3 := (phases1 ++ slicePhases) ++ [openPhase]
  let phases4 :=
    if nowEpoch < nextFirst then
      let ph := prePhase :: phases3
      let cursorEnd := cursorEndOf nextFirst ph
      let earliest := earliestSeasonalStartAux nowEpoch cursorEnd services selections none
      let seasonalStartsSoon :=
        match earliest with
        | some s => decide (s - cursorEnd ≤ NINETY_DAYS_SEC)
        | none => false
      if !lastIsOpenEnded ph && !seasonalStartsSoon then ph ++ [openPhase] else ph
    else phases3
  let phases5 := if !lastIsOpenEnded phases4 then phases4 ++ [openPhase] else phases4
  { phases := phases5, nextFirst := nextFirst, baseQty := baseQty }

/-- `buildSeasonalTimeline(addrRules, refStart)`: windows from rules with a
secondary day and a valid season, sliced as in `buildTimeline`, keeping the
slices ending after `refStart`. -/
def buildSeasonalTimeline (addrRules : List AddrRuleCompact) (refStart : Int) :
    List TimelineSlice :=
  let windows := (addrRules.filter (fun r =>
    decide (r.s ≠ -1) && decide (0 < r.ss) && decide (r.ss < r.se))).map
      (fun r => (⟨r.ss, r.se⟩ : SeasonWindow))
  match windows with
  | [] => []
  | w :: ws =>
      (slicesOfBoundaries (w :: ws)
        (boundariesOf (monthStartsBetween (minStartOf w ws) (maxEndOf w ws)) w ws)).filter
        (fun s => decide (refStart < s.stop))

/-! ## Schedule Reconciler

Source: `src/lib/stripe/scheduleAttach.ts` (`ensureScheduleAttached`,
`upsertScheduleFromSubscription`).  The provider interactions are embedded
as a deterministic transition on an explicit state: one subscription with
its metadata, its optionally linked (expanded) schedule, and the current
phase that `subscriptionSchedules.create({ from_subscription })` would
materialise as phase zero.  Provider I/O is assumed to succeed; the one
`throw` in the source is an `Except.error`. -/

/-- A schedule phase as read from or written to the provider
(`start_date`, `end_date`, line items; the `iterations` extension of the
source's `PhaseUpdate` type is never set and is not embedded). -/
structure PhaseUpdate where
  start_date : Option Int := none
  end_date : Option Int := none
  items : List PhaseItem := []
  proration_behavior : String := "create_prorations"
deriving DecidableEq

/-- A subscription schedule object. -/
structure ScheduleObj where
  id : String
  phases : List PhaseUpdate
deriving DecidableEq

/-- The subscription as the reconciler consumes it: metadata, the linked
schedule (expanded on retrieve), and the current phase the provider derives
from the subscription when a schedule is created from it. -/
structure Subscription where
  metadata : List (String × String) := []
  schedule : Option ScheduleObj := none
  currentPhase : PhaseUpdate := {}
deriving DecidableEq

/-- The provider state visible to the reconciler, plus the identifier the
next `subscriptionSchedules.create` call returns. -/
structure StripeState where
  sub : Subscription
  freshScheduleId : String := "sub_sched_new"
deriving DecidableEq

/-- `PRICE_BY_PLAN.individual` (from `features/payments/stripe/server/prices.ts`). -/
def PRICE_BY_PLAN_individual : PriceIds :=
  ⟨"price_1SEEJ902heDK9w4zW4O0taqq", "price_1SEEJv02heDK9w4zus2PQtCK"⟩

/-- `PRICE_BY_PLAN.business`. -/
def PRICE_BY_PLAN_business : PriceIds :=
  ⟨"price_1SEEKZ02heDK9w4zWLUKNrPi", "price_1SEELH02heDK9w4zU4HxRJuY"⟩

/-- `PRICE_BY_PLAN[account]` with the reconciler's account selection. -/
def priceMapFor (account : String) : PriceIds :=
  if account == "business" then PRICE_BY_PLAN_business else PRICE_BY_PLAN_individual

/-- The reconciler's inline slice loop (same shape as `slicesOfBoundaries`,
with the segment field named `qty` as in the source). -/
def qtySlicesOfBoundaries (windows : List SeasonWindow) : List Int → List QtySlice
  | bStart :: bEnd :: rest =>
      (if bStart < bEnd then
        [{ start := bStart, stop := bEnd,
           qty := (windows.filter (fun w =>
             decide (w.start ≤ bStart) && decide (bEnd ≤ w.stop))).length }]
      else []) ++ qtySlicesOfBoundaries windows (bEnd :: rest)
  | _ => []

/-- The reconciler's month-edge loop: `cursor = minStart; while (cursor <
endLimit) { push(cursor); cursor = nextMonthFirstEpoch(cursor) }` — unlike
`monthStartsBetween`, it starts at `minStart` itself. -/
def reconMonthEdges (minStart maxEnd : Int) : List Int :=
  monthStartsBetweenAux maxEnd ((maxEnd - minStart).toNat + 1) minStart

/-- The window extraction of the reconciler's recompute path: seasonal
windows exist only when some rule has a secondary day, and each contributing
rule needs `s != -1 && ss > 0 && se > ss`. -/
def reconWindows (addrRules : List AddrRuleCompact) : List SeasonWindow :=
  if addrRules.any (fun r => decide (r.s ≠ -1)) then
    (addrRules.filter (fun r =>
      decide (r.s ≠ -1) && decide (0 < r.ss) && decide (r.ss < r.se))).map
      (fun r => (⟨r.ss, r.se⟩ : SeasonWindow))
  else []

/-- The reconciler's segment computation: slice the windows on raw edges and
month edges, and keep the slices ending after the current phase start. -/
def reconSegments (windows : List SeasonWindow) (currentStart : Int) : List QtySlice :=
  match windows with
  | [] => []
  | w :: ws =>
      let minStart := minStartOf w ws
      let maxEnd := maxEndOf w ws
      let boundaries := List.insertionSort (· ≤ ·)
        (setDedup ((w :: ws).flatMap (fun x => [x.start, x.stop]) ++
          reconMonthEdges minStart maxEnd))
      (qtySlicesOfBoundaries (w :: ws) boundaries).filter
        (fun s => decide (currentStart < s.stop))

/-- The consolidation loop: merge a segment into the previous one when the
quantities agree and the intervals abut. -/
def consolidateSegments (segments : List QtySlice) : List QtySlice :=
  segments.foldl (fun acc seg =>
    match acc.getLast? with
    | some last =>
        if last.qty = seg.qty ∧ last.stop = seg.start then
          acc.dropLast ++ [{ last with stop := seg.stop }]
        else acc ++ [seg]
    | none => [seg]) []

/-- One phase per consolidated segment: base item (preserved quantity) plus a
seasonal item when the segment quantity is positive, an explicit end date. -/
def segmentPhase (basePrice seasonalPrice : String) (preservedBaseQty : Nat)
    (seg : QtySlice) : PhaseUpdate :=
  { items :=
      if seg.qty > 0 then
        [⟨basePrice, preservedBaseQty⟩, ⟨seasonalPrice, seg.qty⟩]
      else [⟨basePrice, preservedBaseQty⟩],
    end_date := some seg.stop,
    proration_behavior := "create_prorations" }

/-- `upsertScheduleFromSubscription`: decode the stored compact rules, create
a schedule from the subscription preserving its current phase, recompute the
seasonal segments, consolidate, publish the phase list, and mark the
subscription attached. -/
def upsertScheduleFromSubscription (st : StripeState) : Except String StripeState :=
  let sub := st.sub
  let initialAddrRules := readAddrRulesFromMeta sub.metadata
  if metaGet sub.metadata "schedule_attached" == some "1" then Except.ok st
  else if sub.schedule.isSome then Except.ok st
  else
    let account := if metaGet sub.metadata "signup_account_type" == some "business"
      then "business" else "individual"
    let priceMap := priceMapFor account
    let basePrice := priceMap.base
    let seasonalPrice := priceMap.seasonal
    if initialAddrRules.isEmpty then Except.ok st
    else
      -- No schedule exists here, so one is created from the subscription;
      -- the provider materialises the current phase as phase zero and links
      -- the schedule to the subscription.
      let createdSchedule : ScheduleObj :=
        { id := st.freshScheduleId, phases := [sub.currentPhase] }
      let preservedCurrent := sub.currentPhase
      match preservedCurrent.start_date with
      | none => Except.error "Schedule has no current phase with a numeric start_date"
      | some currentStart =>
          let preservedBaseQty :=
            match preservedCurrent.items.find? (fun it => it.price == basePrice) with
            | some it => it.quantity
            | none => 1
          let windows := reconWindows initialAddrRules
          let segments := reconSegments windows currentStart
          let consolidated := consolidateSegments segments
          let phases : List PhaseUpdate :=
            match consolidated with
            | [] => []
            | s0 :: rest =>
                ({ segmentPhase basePrice seasonalPrice preservedBaseQty s0 with
                    start_date := preservedCurrent.start_date }) ::
                  rest.map (segmentPhase basePrice seasonalPrice preservedBaseQty)
          let phasesFinal :=
            if segments.isEmpty then
              phases ++ [{ items := [⟨basePrice, preservedBaseQty⟩],
                           start_date := preservedCurrent.start_date,
                           proration_behavior := "create_prorations" }]
            else
              phases ++ [{ items := [⟨basePrice, preservedBaseQty⟩],
                           proration_behavior := "create_prorations" }]
          let updatedSchedule : ScheduleObj := { createdSchedule with phases := phasesFinal }
          let newMeta :=
            metaSet (metaSet (metaSet sub.metadata "schedule_attached" "1")
              "schedule_status" "attached") "schedule_id" updatedSchedule.id
          Except.ok { st with
            sub := { sub with schedule := some updatedSchedule, metadata := newMeta } }

/-- `ensureScheduleAttached`: if a schedule exists, only mark the subscription
attached (preserving the schedule); if the metadata flag is set, do nothing;
otherwise rebuild via `upsertScheduleFromSubscription`. -/
def ensureScheduleAttached (st : StripeState) : Except String StripeState :=
  match st.sub.schedule with
  | some sched =>
      if metaGet st.sub.metadata "schedule_attached" ≠ some "1" then
        Except.ok { st with
          sub := { st.sub with
            metadata := metaSet (metaSet st.sub.metadata "schedule_attached" "1")
              "schedule_id" sched.id } }
      else Except.ok st
  | none =>
      if metaGet st.sub.metadata "schedule_attached" == some "1" then Except.ok st
      else upsertScheduleFromSubscription st

/-! ## Concrete inputs used by witnesses and counterexamples -/

/-- Price references used in the signup examples. -/
def exPriceIds : PriceIds := ⟨"price_base", "price_seasonal"⟩

/-- A service address in Surf City (seasonal window May 1 – Sep 30, 2025). -/
def surfCityAddress : JsAddress :=
  { line1 := some "100 Ocean Blvd", city := some "Surf City",
    state := some "NC", postalCode := some "28445" }

/-- April 15, 2025, 00:00 UTC. -/
def apr15_2025 : Int := jsDateUTCsec 2025 3 15

/-- May 1, 2025, 00:00 UTC (the anchor for an April 15 reference time). -/
def may1_2025 : Int := jsDateUTCsec 2025 4 1

/-- Signup phases for one Surf City address with the seasonal add-on. -/
def signupSeasonal : SignupPhasesResult :=
  buildSignupPhases [surfCityAddress] [⟨true⟩] apr15_2025 exPriceIds "create_prorations"

/-- Signup phases for one Surf City address without the seasonal add-on. -/
def signupNoSeasonal : SignupPhasesResult :=
  buildSignupPhases [surfCityAddress] [⟨false⟩] apr15_2025 exPriceIds "create_prorations"

/-- Six disjoint one-month seasonal windows (every second month from March
2025), whose timeline alternates between quantities 1 and 0 and therefore
cannot be consolidated below eleven segments. -/
def altRules : List AddrRuleCompact :=
  (List.range 6).map (fun k =>
    { c := "a", z := "1", b := 1, s := 2,
      ss := jsDateUTCsec 2025 (2 + 2 * (k : Int)) 1,
      se := jsDateUTCsec 2025 (3 + 2 * (k : Int)) 1 })

/-- A subscription state carrying `altRules` in its metadata, no schedule, no
attachment flag, and a current phase starting February 1, 2025. -/
def altRulesState : StripeState :=
  { sub := { metadata := encodeAddrRulesMeta altRules,
             currentPhase := { start_date := some (jsDateUTCsec 2025 1 1),
                               items := [⟨"price_1SEEJ902heDK9w4zW4O0taqq", 2⟩] } },
    freshScheduleId := "sched_1" }

/-- Twelve compact rules whose JSON serialization (745 characters) exceeds
the 480-character metadata cap and is therefore chunked. -/
def longRules : List AddrRuleCompact :=
  (List.range 12).map (fun k =>
    { c := "a", z := "1", b := 1, s := 2,
      ss := 1000000000 + 1000000 * (k : Int), se := 1500000000 + 1000000 * (k : Int) })

/-- One compact rule with a valid season window but no secondary day. -/
def noSecRules : List AddrRuleCompact :=
  [{ c := "w", z := "2", b := 2, s := -1,
     ss := jsDateUTCsec 2025 4 1, se := jsDateUTCsec 2025 9 1 }]

/-- A subscription state carrying `noSecRules`. -/
def noSecState : StripeState :=
  { sub := { metadata := encodeAddrRulesMeta noSecRules,
             currentPhase := { start_date := some (jsDateUTCsec 2025 1 1),
                               items := [⟨"price_1SEEJ902heDK9w4zW4O0taqq", 1⟩] } },
    freshScheduleId := "sched_2" }

/-- The state `ensureScheduleAttached altRulesState` completes in. -/
def altRulesStateAfter : StripeState :=
  match ensureScheduleAttached altRulesState with
  | Except.ok st => st
  | Except.error _ => altRulesState

/-- The number of phases the reconciler publishes from a state (0 when it
publishes nothing). -/
def reconPhaseCount (st : StripeState) : Nat :=
  match upsertScheduleFromSubscription st with
  | Except.ok st' =>
      match st'.sub.schedule with
      | some sc => sc.phases.length
      | none => 0
  | Except.error _ => 0

/-- The phase list the reconciler's rebuild path publishes (the
`phasesFinal` sub-expression of `upsertScheduleFromSubscription`, with the
current phase start `cs`). -/
def reconPublishedPhases (st : StripeState) (cs : Int) : List PhaseUpdate :=
  let account := if metaGet st.sub.metadata "signup_account_type" == some "business"
    then "business" else "individual"
  let priceMap := priceMapFor account
  let basePrice := priceMap.base
  let seasonalPrice := priceMap.seasonal
  let preservedBaseQty :=
    match st.sub.currentPhase.items.find? (fun it => it.price == basePrice) with
    | some it => it.quantity
    | none => 1
  let windows := reconWindows (readAddrRulesFromMeta st.sub.metadata)
  let segments := reconSegments windows cs
  let consolidated := consolidateSegments segments
  let phases : List PhaseUpdate :=
    match consolidated with
    | [] => []
    | s0 :: rest =>
        ({ segmentPhase basePrice seasonalPrice preservedBaseQty s0 with
            start_date := st.sub.currentPhase.start_date }) ::
          rest.map (segmentPhase basePrice seasonalPrice preservedBaseQty)
  if segments.isEmpty then
    phases ++ [{ items := [⟨basePrice, preservedBaseQty⟩],
                 start_date := st.sub.currentPhase.start_date,
                 proration_behavior := "create_prorations" }]
  else
    phases ++ [{ items := [⟨basePrice, preservedBaseQty⟩],
                 proration_behavior := "create_prorations" }]

/-- The schedule `ensureScheduleAttached altRulesState` publishes. -/
def altRulesSchedule : ScheduleObj :=
  match altRulesStateAfter.sub.schedule with
  | some sc => sc
  | none => ⟨"", []⟩

/-- The state `ensureScheduleAttached noSecState` completes in. -/
def noSecStateAfter : StripeState :=
  match ensureScheduleAttached noSecState with
  | Except.ok st => st
  | Except.error _ => noSecState

/-- The schedule `ensureScheduleAttached noSecState` publishes. -/
def noSecSchedule : ScheduleObj :=
  match noSecStateAfter.sub.schedule with
  | some sc => sc
  | none => ⟨"", []⟩

/-- A seasonal window May 1 – June 15, 2025 (used by the tiling witness). -/
def exWindow1 : SeasonWindow := ⟨jsDateUTCsec 2025 4 1, jsDateUTCsec 2025 5 15⟩

/-- A seasonal window June 1 – August 1, 2025 (used by the tiling witness). -/
def exWindow2 : SeasonWindow := ⟨jsDateUTCsec 2025 5 1, jsDateUTCsec 2025 7 1⟩

/-! ## Calendar correctness -/

theorem doe_era (z : Int) :
    z + 719468 = 146097 * eraOf z + doeOf z ∧ 0 ≤ doeOf z ∧ doeOf z < 146097 := by
  unfold eraOf doeOf; omega

theorem doe_decomp (z : Int) :
    doeOf z = 36524 * cenOf z + 1461 * quadOf z + 365 * yqOf z + doyOf z ∧
    0 ≤ cenOf z ∧ cenOf z ≤ 3 ∧ 0 ≤ quadOf z ∧ quadOf z ≤ 24 ∧
    0 ≤ yqOf z ∧ yqOf z ≤ 3 ∧ 0 ≤ doyOf z ∧ doyOf z ≤ 365 ∧
    (yqOf z ≤ 2 → doyOf z ≤ 364) ∧
    (cenOf z ≤ 2 → quadOf z = 24 → doyOf z ≤ 364) := by
  have h := doe_era z
  unfold doyOf yqOf rquadOf quadOf dcenOf cenOf
  omega

theorem yoe_range (z : Int) : 0 ≤ yoeOf z ∧ yoeOf z ≤ 399 := by
  have h := doe_decomp z
  unfold yoeOf; omega

theorem yoe_decomp (z : Int) :
    yoeOf z = 100 * cenOf z + 4 * quadOf z + yqOf z := rfl

/-- Year-start consistency: `doeOf z` lies in the day-of-era interval of the
year `yoeOf z` (year starts given by the standard leap-count formula). -/
theorem yearStart_facts (z : Int) :
    365 * yoeOf z + yoeOf z / 4 - yoeOf z / 100 ≤ doeOf z ∧
    365 * yoeOf z + yoeOf z / 4 - yoeOf z / 100 + doyOf z = doeOf z ∧
    (yoeOf z ≤ 398 →
      doeOf z < 365 * (yoeOf z + 1) + (yoeOf z + 1) / 4 - (yoeOf z + 1) / 100) := by
  have h := doe_decomp z
  unfold yoeOf at *
  omega

theorem mp_facts (z : Int) :
    0 ≤ mpOf z ∧ mpOf z ≤ 11 ∧
    (153 * mpOf z + 2) / 5 ≤ doyOf z ∧
    (mpOf z ≤ 10 → doyOf z < (153 * (mpOf z + 1) + 2) / 5) ∧
    1 ≤ domOf z := by
  have h := doe_decomp z
  unfold domOf mpOf
  omega

theorem month_range (z : Int) : 1 ≤ monthOf z ∧ monthOf z ≤ 12 := by
  have h := mp_facts z
  unfold monthOf; split <;> omega

theorem monthOf_cases (z : Int) :
    (mpOf z ≤ 9 ∧ monthOf z = mpOf z + 3) ∨ (10 ≤ mpOf z ∧ monthOf z = mpOf z - 9) := by
  have h := mp_facts z
  unfold monthOf; split <;> omega

theorem yearOf_cases (z : Int) :
    (monthOf z ≤ 2 ∧ yearOf z = yoeOf z + 400 * eraOf z + 1) ∨
    (2 < monthOf z ∧ yearOf z = yoeOf z + 400 * eraOf z) := by
  unfold yearOf; split <;> omega

/-- `daysFromCivil` at a March-to-December month, era-decomposed year. -/
theorem dfc_at (E Y M D : Int) (hY0 : 0 ≤ Y) (hY1 : Y ≤ 399) (hM3 : 3 ≤ M) (hM12 : M ≤ 12) :
    daysFromCivil (Y + 400 * E) M D =
      146097 * E + (365 * Y + Y / 4 - Y / 100) + (153 * (M - 3) + 2) / 5 + D - 1 - 719468 := by
  unfold daysFromCivil
  dsimp only
  split_ifs <;> omega

/-- `daysFromCivil` at January/February, era-decomposed (shifted) year. -/
theorem dfc_feb (E Y M D : Int) (hY0 : 0 ≤ Y) (hY1 : Y ≤ 399) (hM1 : 1 ≤ M) (hM2 : M ≤ 2) :
    daysFromCivil (Y + 400 * E + 1) M D =
      146097 * E + (365 * Y + Y / 4 - Y / 100) + (153 * (M + 9) + 2) / 5 + D - 1 - 719468 := by
  unfold daysFromCivil
  dsimp only
  split_ifs <;> omega

/-- Round-trip: converting an epoch day to civil and back is the identity,
certifying that `yearOf`/`monthOf`/`domOf` invert `daysFromCivil` and hence
model the ECMA-262 `getUTC*` readers of the proleptic Gregorian calendar. -/
theorem daysFromCivil_civil (z : Int) :
    daysFromCivil (yearOf z) (monthOf z) (domOf z) = z := by
  have h1 := doe_era z
  have h3 := yearStart_facts z
  have h4 := mp_facts z
  have h7 := yoe_range z
  have hdom : domOf z = doyOf z - (153 * mpOf z + 2) / 5 + 1 := rfl
  rcases monthOf_cases z with ⟨h5a, h5b⟩ | ⟨h5a, h5b⟩ <;>
    rcases yearOf_cases z with ⟨h6a, h6b⟩ | ⟨h6a, h6b⟩
  · omega
  · rw [h6b, dfc_at (eraOf z) (yoeOf z) (monthOf z) (domOf z) h7.1 h7.2 (by omega) (by omega)]
    omega
  · rw [h6b, dfc_feb (eraOf z) (yoeOf z) (monthOf z) (domOf z) h7.1 h7.2 (by omega) (by omega)]
    omega
  · omega

theorem daysFromCivil_lb (Y M : Int) (hY : 1900 ≤ Y) (h1 : 1 ≤ M) (h2 : M ≤ 12) :
    -135080 ≤ daysFromCivil Y M 1 := by
  unfold daysFromCivil
  dsimp only
  split_ifs <;> omega

theorem smallYear_day_bound (z : Int) (h : yearOf z ≤ 99) : z ≤ -573372 := by
  have h1 := doe_era z
  have h6 := yearOf_cases z
  have h7 := yoe_range z
  omega

/-- A day is strictly before the first day of the next month (in the
`Date.UTC` form the source uses, including the two-digit-year mapping). -/
theorem day_lt_nextMonthDay (z : Int) : z < jsDateUTCdays (yearOf z) (monthOf z) 1 := by
  have h1 := doe_era z
  have h3 := yearStart_facts z
  have h4 := mp_facts z
  have h7 := yoe_range z
  unfold jsDateUTCdays
  by_cases hmap : 0 ≤ yearOf z ∧ yearOf z ≤ 99
  · have hA : jsMakeFullYear (yearOf z) = 1900 + yearOf z := by
      unfold jsMakeFullYear; rw [if_pos hmap]
    rw [hA]
    have hM := month_range z
    have hlb := daysFromCivil_lb (1900 + yearOf z + monthOf z / 12) (monthOf z % 12 + 1)
      (by omega) (by omega) (by omega)
    have hz := smallYear_day_bound z (by omega)
    omega
  · have hA : jsMakeFullYear (yearOf z) = yearOf z := by
      unfold jsMakeFullYear; rw [if_neg hmap]
    rw [hA]
    rcases monthOf_cases z with ⟨h5a, h5b⟩ | ⟨h5a, h5b⟩ <;>
      rcases yearOf_cases z with ⟨h6a, h6b⟩ | ⟨h6a, h6b⟩
    · omega
    · by_cases hm12 : monthOf z = 12
      · have hdoy : doyOf z < (153 * (mpOf z + 1) + 2) / 5 := h4.2.2.2.1 (by omega)
        have hdiv : monthOf z / 12 = 1 := by omega
        have hmod : monthOf z % 12 = 0 := by omega
        rw [hdiv, hmod, h6b]
        rw [dfc_feb (eraOf z) (yoeOf z) (0 + 1) 1 h7.1 h7.2 (by omega) (by omega)]
        omega
      · have hdoy : doyOf z < (153 * (mpOf z + 1) + 2) / 5 := h4.2.2.2.1 (by omega)
        have hdiv : monthOf z / 12 = 0 := by omega
        have hmod : monthOf z % 12 = monthOf z := by omega
        rw [hdiv, hmod, h6b]
        have harg : yoeOf z + 400 * eraOf z + 0 = yoeOf z + 400 * eraOf z := by ring
        rw [harg]
        rw [dfc_at (eraOf z) (yoeOf z) (monthOf z + 1) 1 h7.1 h7.2 (by omega) (by omega)]
        omega
    · have hdiv : monthOf z / 12 = 0 := by omega
      have hmod : monthOf z % 12 = monthOf z := by omega
      rw [hdiv, hmod, h6b]
      have harg : yoeOf z + 400 * eraOf z + 1 + 0 = yoeOf z + 400 * eraOf z + 1 := by ring
      rw [harg]
      by_cases hm1 : monthOf z = 1
      · have hdoy : doyOf z < (153 * (mpOf z + 1) + 2) / 5 := h4.2.2.2.1 (by omega)
        rw [hm1]
        rw [dfc_feb (eraOf z) (yoeOf z) (1 + 1) 1 h7.1 h7.2 (by omega) (by omega)]
        omega
      · have hm2 : monthOf z = 2 := by omega
        rw [hm2]
        by_cases hy398 : yoeOf z ≤ 398
        · have hys := h3.2.2 (by omega)
          have harg2 : yoeOf z + 400 * eraOf z + 1 = (yoeOf z + 1) + 400 * eraOf z := by ring
          rw [harg2]
          rw [dfc_at (eraOf z) (yoeOf z + 1) (2 + 1) 1 (by omega) (by omega) (by omega) (by omega)]
          omega
        · have harg2 : yoeOf z + 400 * eraOf z + 1 = 0 + 400 * (eraOf z + 1) := by omega
          rw [harg2]
          rw [dfc_at (eraOf z + 1) 0 (2 + 1) 1 (by omega) (by omega) (by omega) (by omega)]
          omega
    · omega

/-- Every epoch second is strictly before the first second of the next month. -/
theorem lt_nextMonthFirstEpoch (e : Int) : e < nextMonthFirstEpoch e := by
  have h := day_lt_nextMonthDay (e / 86400)
  unfold nextMonthFirstEpoch startOfMonthUtcEpoch jsUTCYear jsUTCMonth0 jsDateUTCsec
  have harg : monthOf (e / 86400) - 1 + 1 = monthOf (e / 86400) := by ring
  rw [harg]
  omega

/-- Elements produced by the month-start loop stay in `[cur, maxEnd)`. -/
theorem mem_monthStartsBetweenAux {b : Int} {x : Int} :
    ∀ {n : Nat} {cur : Int}, x ∈ monthStartsBetweenAux b n cur → cur ≤ x ∧ x < b := by
  intro n
  induction n with
  | zero => intro cur hx; simp [monthStartsBetweenAux] at hx
  | succ n ih =>
      intro cur hx
      unfold monthStartsBetweenAux at hx
      by_cases hc : cur < b
      · rw [if_pos hc] at hx
        rcases List.mem_cons.mp hx with rfl | hx'
        · exact ⟨le_refl _, hc⟩
        · have h2 := ih hx'
          have h3 := lt_nextMonthFirstEpoch cur
          exact ⟨by omega, h2.2⟩
      · rw [if_neg hc] at hx
        simp at hx

/-- `monthStartsBetween a b ⊆ [a, b)`. -/
theorem mem_monthStartsBetween {a b x : Int} (hx : x ∈ monthStartsBetween a b) :
    a ≤ x ∧ x < b := by
  unfold monthStartsBetween at hx
  have h := mem_monthStartsBetweenAux hx
  refine ⟨le_trans ?_ h.1, h.2⟩
  unfold monthStartsFirst
  dsimp only
  split
  · have := lt_nextMonthFirstEpoch a
    omega
  · omega

/-! ## C1: the timeline tiles the window span -/

theorem mem_setDedupGo {x : Int} :
    ∀ {l seen : List Int}, x ∈ setDedupGo seen l ↔ (x ∈ l ∧ x ∉ seen) := by
  intro l
  induction l with
  | nil => intro seen; simp [setDedupGo]
  | cons y ys ih =>
      intro seen
      unfold setDedupGo
      by_cases hy : seen.contains y
      · rw [if_pos hy]
        rw [ih]
        have hy' : y ∈ seen := by
          have := List.elem_iff.mp hy
          exact this
        constructor
        · rintro ⟨h1, h2⟩
          exact ⟨List.mem_cons_of_mem _ h1, h2⟩
        · rintro ⟨h1, h2⟩
          rcases List.mem_cons.mp h1 with rfl | h1'
          · exact absurd hy' h2
          · exact ⟨h1', h2⟩
      · rw [if_neg hy]
        constructor
        · intro hx
          rcases List.mem_cons.mp hx with rfl | hx'
          · refine ⟨List.mem_cons_self _ _, ?_⟩
            intro hc
            exact hy (List.elem_iff.mpr hc)
          · have := ih.mp hx'
            refine ⟨List.mem_cons_of_mem _ this.1, ?_⟩
            intro hc
            exact this.2 (List.mem_cons_of_mem _ hc)
        · rintro ⟨h1, h2⟩
          rcases List.mem_cons.mp h1 with rfl | h1'
          · exact List.mem_cons_self _ _
          · by_cases hxy : x = y
            · subst hxy; exact List.mem_cons_self _ _
            · refine List.mem_cons_of_mem _ (ih.mpr ⟨h1', ?_⟩)
              intro hc
              rcases List.mem_cons.mp hc with h | h
              · exact hxy h
              · exact h2 h

theorem mem_setDedup {x : Int} {l : List Int} : x ∈ setDedup l ↔ x ∈ l := by
  unfold setDedup
  rw [mem_setDedupGo]
  simp

theorem nodup_setDedupGo : ∀ (l seen : List Int), (setDedupGo seen l).Nodup := by
  intro l
  induction l with
  | nil => intro seen; simp [setDedupGo]
  | cons y ys ih =>
      intro seen
      unfold setDedupGo
      by_cases hy : seen.contains y
      · rw [if_pos hy]; exact ih seen
      · rw [if_neg hy]
        refine List.nodup_cons.mpr ⟨?_, ih (y :: seen)⟩
        intro hmem
        exact (mem_setDedupGo.mp hmem).2 (List.mem_cons_self _ _)

theorem nodup_setDedup (l : List Int) : (setDedup l).Nodup := nodup_setDedupGo l []

theorem sortedBoundaries {l : List Int} :
    List.Pairwise (· < ·) (List.insertionSort (· ≤ ·) (setDedup l)) := by
  have hs : List.Sorted (· ≤ ·) (List.insertionSort (· ≤ ·) (setDedup l)) :=
    List.sorted_insertionSort _ _
  have hn : (List.insertionSort (· ≤ ·) (setDedup l)).Nodup :=
    (List.perm_insertionSort _ _).nodup_iff.mpr (nodup_setDedup l)
  exact (hs.and hn).imp (fun h => lt_of_le_of_ne h.1 h.2)

theorem mem_sortDedup {x : Int} {l : List Int} :
    x ∈ List.insertionSort (· ≤ ·) (setDedup l) ↔ x ∈ l := by
  rw [(List.perm_insertionSort _ _).mem_iff, mem_setDedup]

theorem head_eq_min {l : List Int} (hs : List.Pairwise (· < ·) l) {m : Int}
    (hm : m ∈ l) (hall : ∀ x ∈ l, m ≤ x) : l.head? = some m := by
  cases l with
  | nil => simp at hm
  | cons a t =>
      have ham : m ≤ a := hall a (List.mem_cons_self _ _)
      rcases List.mem_cons.mp hm with rfl | hmt
      · rfl
      · have := (List.pairwise_cons.mp hs).1 m hmt
        omega

theorem getLast_eq_max : ∀ {l : List Int}, List.Pairwise (· < ·) l → ∀ {M : Int},
    M ∈ l → (∀ x ∈ l, x ≤ M) → l.getLast? = some M := by
  intro l
  induction l with
  | nil => intro _ M hM; simp at hM
  | cons a t ih =>
      intro hs M hM hall
      cases t with
      | nil =>
          rcases List.mem_cons.mp hM with rfl | h
          · rfl
          · simp at h
      | cons b t' =>
          have hab : a < b := (List.pairwise_cons.mp hs).1 b (List.mem_cons_self _ _)
          have hMbt : M ∈ b :: t' := by
            rcases List.mem_cons.mp hM with rfl | h
            · have := hall b (List.mem_cons_of_mem _ (List.mem_cons_self _ _))
              omega
            · exact h
          have : (b :: t').getLast? = some M :=
            ih (List.pairwise_cons.mp hs).2 hMbt
              (fun x hx => hall x (List.mem_cons_of_mem _ hx))
          rw [List.getLast?_cons_cons]
          exact this

theorem foldl_min_facts (l : List SeasonWindow) :
    ∀ (init : Int),
      (l.foldl (fun acc x => min acc x.start) init ≤ init) ∧
      (∀ x ∈ l, l.foldl (fun acc x => min acc x.start) init ≤ x.start) ∧
      (l.foldl (fun acc x => min acc x.start) init = init ∨
        ∃ x ∈ l, l.foldl (fun acc x => min acc x.start) init = x.start) := by
  induction l with
  | nil => intro init; simp
  | cons y ys ih =>
      intro init
      have h := ih (min init y.start)
      refine ⟨?_, ?_, ?_⟩
      · simp only [List.foldl_cons]
        calc ys.foldl (fun acc x => min acc x.start) (min init y.start) ≤ min init y.start :=
              h.1
          _ ≤ init := min_le_left _ _
      · intro x hx
        rcases List.mem_cons.mp hx with rfl | hx'
        · simp only [List.foldl_cons]
          calc ys.foldl (fun acc x => min acc x.start) (min init x.start) ≤ min init x.start :=
                h.1
            _ ≤ x.start := min_le_right _ _
        · exact h.2.1 x hx'
      · simp only [List.foldl_cons]
        rcases h.2.2 with heq | ⟨x, hx, heq⟩
        · rcases le_total init y.start with hle | hle
          · left; rw [heq, min_eq_left hle]
          · right; exact ⟨y, List.mem_cons_self _ _, by rw [heq, min_eq_right hle]⟩
        · right; exact ⟨x, List.mem_cons_of_mem _ hx, heq⟩

theorem foldl_max_facts (l : List SeasonWindow) :
    ∀ (init : Int),
      (init ≤ l.foldl (fun acc x => max acc x.stop) init) ∧
      (∀ x ∈ l, x.stop ≤ l.foldl (fun acc x => max acc x.stop) init) ∧
      (l.foldl (fun acc x => max acc x.stop) init = init ∨
        ∃ x ∈ l, l.foldl (fun acc x => max acc x.stop) init = x.stop) := by
  induction l with
  | nil => intro init; simp
  | cons y ys ih =>
      intro init
      have h := ih (max init y.stop)
      refine ⟨?_, ?_, ?_⟩
      · simp only [List.foldl_cons]
        calc init ≤ max init y.stop := le_max_left _ _
          _ ≤ ys.foldl (fun acc x => max acc x.stop) (max init y.stop) := h.1
      · intro x hx
        rcases List.mem_cons.mp hx with rfl | hx'
        · simp only [List.foldl_cons]
          calc x.stop ≤ max init x.stop := le_max_right _ _
            _ ≤ ys.foldl (fun acc x => max acc x.stop) (max init x.stop) := h.1
        · exact h.2.1 x hx'
      · simp only [List.foldl_cons]
        rcases h.2.2 with heq | ⟨x, hx, heq⟩
        · rcases le_total init y.stop with hle | hle
          · right; exact ⟨y, List.mem_cons_self _ _, by rw [heq, max_eq_right hle]⟩
          · left; rw [heq, max_eq_left hle]
        · right; exact ⟨x, List.mem_cons_of_mem _ hx, heq⟩

/-- Structure of the slice walk over a strictly increasing boundary list with
at least two entries: nonempty, first slice starts at the first boundary,
last slice ends at the last boundary, consecutive slices abut, and every
slice is a positive-length interval with the definitional window count. -/
theorem slicesOfBoundaries_spec (w : List SeasonWindow) :
    ∀ (rest : List Int) (b : Int), rest ≠ [] → List.Pairwise (· < ·) (b :: rest) →
      (slicesOfBoundaries w (b :: rest)) ≠ [] ∧
      (slicesOfBoundaries w (b :: rest)).head?.map TimelineSlice.start = some b ∧
      (slicesOfBoundaries w (b :: rest)).getLast?.map TimelineSlice.stop = rest.getLast? ∧
      List.Chain' (fun s t => s.stop = t.start) (slicesOfBoundaries w (b :: rest)) ∧
      ∀ sl ∈ slicesOfBoundaries w (b :: rest), sl.start < sl.stop ∧
        sl.seasonalActiveCount = (w.filter (fun x =>
          decide (x.start ≤ sl.start) && decide (sl.stop ≤ x.stop))).length := by
  intro rest
  induction rest with
  | nil => intro b h; exact absurd rfl h
  | cons b1 t ih =>
      intro b _ hp
      have hb : b < b1 := (List.pairwise_cons.mp hp).1 b1 (List.mem_cons_self _ _)
      cases t with
      | nil =>
          refine ⟨?_, ?_, ?_, ?_, ?_⟩ <;>
            simp [slicesOfBoundaries, hb, List.Chain']
      | cons b2 t' =>
          have hrec := ih b1 (by simp) (List.pairwise_cons.mp hp).2
          have hcons : slicesOfBoundaries w (b :: b1 :: b2 :: t') =
              ({ start := b, stop := b1,
                 seasonalActiveCount := (w.filter (fun x =>
                   decide (x.start ≤ b) && decide (b1 ≤ x.stop))).length } : TimelineSlice) ::
                slicesOfBoundaries w (b1 :: b2 :: t') := by
            rw [slicesOfBoundaries, if_pos hb]
            rfl
          obtain ⟨hne, hhead, hlast, hchain, hmem⟩ := hrec
          -- the recursive slice list is nonempty; name its head
          obtain ⟨s0, ss, hS⟩ : ∃ s0 ss, slicesOfBoundaries w (b1 :: b2 :: t') = s0 :: ss := by
            cases hS : slicesOfBoundaries w (b1 :: b2 :: t') with
            | nil => exact absurd hS hne
            | cons s0 ss => exact ⟨s0, ss, rfl⟩
          have hs0 : s0.start = b1 := by
            rw [hS] at hhead
            simp at hhead
            exact hhead
          refine ⟨?_, ?_, ?_, ?_, ?_⟩
          · rw [hcons]; simp
          · rw [hcons]; rfl
          · rw [hcons, hS]
            rw [hS] at hlast
            simpa using hlast
          · rw [hcons, hS]
            rw [hS] at hchain
            exact List.Chain'.cons (by simpa using hs0.symm) hchain
          · intro sl hsl
            rw [hcons] at hsl
            rcases List.mem_cons.mp hsl with rfl | hsl'
            · exact ⟨hb, rfl⟩
            · exact hmem sl hsl'

/-- C1.  For every non-empty list of seasonal windows, each with end after
start, `buildTimeline` (whose slicing body over the gathered windows is
`buildTimelineWindows`) returns slices that exactly tile the interval from
the minimum window start to the maximum window end, contiguously, with no
gaps and no overlaps, and every slice's active count equals the number of
input windows `x` with `x.start ≤ slice.start` and `slice.stop ≤ x.stop`. -/
theorem buildTimeline_tiling (w : SeasonWindow) (ws : List SeasonWindow)
    (hval : ∀ x ∈ w :: ws, x.start < x.stop) :
    buildTimelineWindows (w :: ws) ≠ [] ∧
    (buildTimelineWindows (w :: ws)).head?.map TimelineSlice.start =
      some (minStartOf w ws) ∧
    (buildTimelineWindows (w :: ws)).getLast?.map TimelineSlice.stop =
      some (maxEndOf w ws) ∧
    List.Chain' (fun s t => s.stop = t.start) (buildTimelineWindows (w :: ws)) ∧
    ∀ sl ∈ buildTimelineWindows (w :: ws), sl.start < sl.stop ∧
      sl.seasonalActiveCount = ((w :: ws).filter (fun x =>
        decide (x.start ≤ sl.start) && decide (sl.stop ≤ x.stop))).length := by
  have hminf := foldl_min_facts ws w.start
  have hmaxf := foldl_max_facts ws w.stop
  have hminle : ∀ y ∈ w :: ws, minStartOf w ws ≤ y.start := by
    intro y hy
    rcases List.mem_cons.mp hy with rfl | hy'
    · exact hminf.1
    · exact hminf.2.1 y hy'
  have hmaxle : ∀ y ∈ w :: ws, y.stop ≤ maxEndOf w ws := by
    intro y hy
    rcases List.mem_cons.mp hy with rfl | hy'
    · exact hmaxf.1
    · exact hmaxf.2.1 y hy'
  have hminmax : minStartOf w ws < maxEndOf w ws := by
    have h1 := hminle w (List.mem_cons_self _ _)
    have h2 := hmaxle w (List.mem_cons_self _ _)
    have h3 := hval w (List.mem_cons_self _ _)
    omega
  have hEbound : ∀ x ∈ (w :: ws).flatMap (fun x => [x.start, x.stop]) ++
      monthStartsBetween (minStartOf w ws) (maxEndOf w ws),
      minStartOf w ws ≤ x ∧ x ≤ maxEndOf w ws := by
    intro x hx
    rcases List.mem_append.mp hx with hraw | hmon
    · obtain ⟨y, hy, hxy⟩ := List.mem_flatMap.mp hraw
      have h1 := hminle y hy
      have h2 := hmaxle y hy
      have h3 := hval y hy
      rcases List.mem_cons.mp hxy with rfl | hxy'
      · omega
      · rcases List.mem_cons.mp hxy' with rfl | h
        · omega
        · simp at h
    · have := mem_monthStartsBetween hmon
      omega
  have hminE : minStartOf w ws ∈ (w :: ws).flatMap (fun x => [x.start, x.stop]) ++
      monthStartsBetween (minStartOf w ws) (maxEndOf w ws) := by
    refine List.mem_append_left _ ?_
    rcases hminf.2.2 with heq | ⟨y, hy, heq⟩
    · refine List.mem_flatMap.mpr ⟨w, List.mem_cons_self _ _, ?_⟩
      have hq : minStartOf w ws = w.start := heq
      rw [hq]; simp
    · refine List.mem_flatMap.mpr ⟨y, List.mem_cons_of_mem _ hy, ?_⟩
      have hq : minStartOf w ws = y.start := heq
      rw [hq]; simp
  have hmaxE : maxEndOf w ws ∈ (w :: ws).flatMap (fun x => [x.start, x.stop]) ++
      monthStartsBetween (minStartOf w ws) (maxEndOf w ws) := by
    refine List.mem_append_left _ ?_
    rcases hmaxf.2.2 with heq | ⟨y, hy, heq⟩
    · refine List.mem_flatMap.mpr ⟨w, List.mem_cons_self _ _, ?_⟩
      have hq : maxEndOf w ws = w.stop := heq
      rw [hq]; simp
    · refine List.mem_flatMap.mpr ⟨y, List.mem_cons_of_mem _ hy, ?_⟩
      have hq : maxEndOf w ws = y.stop := heq
      rw [hq]; simp
  have hsorted : List.Pairwise (· < ·)
      (boundariesOf (monthStartsBetween (minStartOf w ws) (maxEndOf w ws)) w ws) :=
    sortedBoundaries
  have hmem : ∀ x, x ∈ boundariesOf (monthStartsBetween (minStartOf w ws) (maxEndOf w ws)) w ws ↔
      x ∈ (w :: ws).flatMap (fun x => [x.start, x.stop]) ++
        monthStartsBetween (minStartOf w ws) (maxEndOf w ws) :=
    fun x => mem_sortDedup
  have hhead : (boundariesOf (monthStartsBetween (minStartOf w ws) (maxEndOf w ws)) w ws).head? =
      some (minStartOf w ws) :=
    head_eq_min hsorted ((hmem _).mpr hminE)
      (fun x hx => (hEbound x ((hmem x).mp hx)).1)
  have hlast : (boundariesOf (monthStartsBetween (minStartOf w ws) (maxEndOf w ws)) w ws).getLast? =
      some (maxEndOf w ws) :=
    getLast_eq_max hsorted ((hmem _).mpr hmaxE)
      (fun x hx => (hEbound x ((hmem x).mp hx)).2)
  obtain ⟨rest, hbs⟩ : ∃ rest,
      boundariesOf (monthStartsBetween (minStartOf w ws) (maxEndOf w ws)) w ws =
        minStartOf w ws :: rest := by
    cases hb : boundariesOf (monthStartsBetween (minStartOf w ws) (maxEndOf w ws)) w ws with
    | nil => rw [hb] at hhead; simp at hhead
    | cons a t =>
        rw [hb] at hhead
        simp at hhead
        exact ⟨t, by rw [hhead]⟩
  have hrestne : rest ≠ [] := by
    intro hrnil
    rw [hrnil] at hbs
    rw [hbs] at hlast
    simp only [List.getLast?_singleton, Option.some.injEq] at hlast
    omega
  have hbw : buildTimelineWindows (w :: ws) =
      slicesOfBoundaries (w :: ws) (minStartOf w ws :: rest) := by
    show slicesOfBoundaries (w :: ws)
        (boundariesOf (monthStartsBetween (minStartOf w ws) (maxEndOf w ws)) w ws) = _
    rw [hbs]
  have hspec := slicesOfBoundaries_spec (w :: ws) rest (minStartOf w ws) hrestne
    (hbs ▸ hsorted)
  have hrl : rest.getLast? = some (maxEndOf w ws) := by
    rw [hbs] at hlast
    cases rest with
    | nil => exact absurd rfl hrestne
    | cons r1 rt => rw [List.getLast?_cons_cons] at hlast; exact hlast
  obtain ⟨h1, h2, h3, h4, h5⟩ := hspec
  refine ⟨?_, ?_, ?_, ?_, ?_⟩
  · rw [hbw]; exact h1
  · rw [hbw, h2]
  · rw [hbw, h3, hrl]
  · rw [hbw]; exact h4
  · rw [hbw]; exact h5

/-- C1 witness: the tiling theorem applied to two concrete overlapping
windows. -/
theorem buildTimeline_tiling_witness :
    (∀ x ∈ exWindow1 :: [exWindow2], x.start < x.stop) ∧
    (buildTimelineWindows (exWindow1 :: [exWindow2]) ≠ [] ∧
     (buildTimelineWindows (exWindow1 :: [exWindow2])).head?.map TimelineSlice.start =
       some (minStartOf exWindow1 [exWindow2]) ∧
     (buildTimelineWindows (exWindow1 :: [exWindow2])).getLast?.map TimelineSlice.stop =
       some (maxEndOf exWindow1 [exWindow2]) ∧
     List.Chain' (fun s t => s.stop = t.start) (buildTimelineWindows (exWindow1 :: [exWindow2])) ∧
     ∀ sl ∈ buildTimelineWindows (exWindow1 :: [exWindow2]), sl.start < sl.stop ∧
       sl.seasonalActiveCount = ((exWindow1 :: [exWindow2]).filter (fun x =>
         decide (x.start ≤ sl.start) && decide (sl.stop ≤ x.stop))).length) :=
  ⟨by decide, buildTimeline_tiling exWindow1 [exWindow2] (by decide)⟩

theorem filterMap_slicePhase (priceIds : PriceIds) (pb : String) (baseQty : Nat)
    (nextFirst : Int) :
    ∀ (l : List TimelineSlice), (∀ s ∈ l, nextFirst ≤ s.start) →
      (l.filterMap (fun slice =>
        if nextFirst ≤ slice.start then some (slicePhaseOf priceIds pb baseQty slice)
        else none)) = l.map (slicePhaseOf priceIds pb baseQty) := by
  intro l
  induction l with
  | nil => intro _; rfl
  | cons s t ih =>
      intro h
      have hs : nextFirst ≤ s.start := h s (List.mem_cons_self _ _)
      simp only [List.filterMap_cons, List.map_cons, if_pos hs]
      rw [ih (fun x hx => h x (List.mem_cons_of_mem _ hx))]

theorem lastIsOpenEnded_concat (priceIds : PriceIds) (pb : String) (baseQty : Nat)
    (l : List PhaseWithDuration) :
    lastIsOpenEnded (l ++ [signupOpenPhase priceIds pb baseQty]) = true := by
  unfold lastIsOpenEnded
  rw [List.getLast?_concat]
  simp [signupOpenPhase]

theorem lastIsOpenEnded_cons2 (priceIds : PriceIds) (pb : String) (baseQty : Nat)
    (a b : PhaseWithDuration) (l : List PhaseWithDuration) :
    lastIsOpenEnded (a :: b :: (l ++ [signupOpenPhase priceIds pb baseQty])) = true := by
  rw [show a :: b :: (l ++ [signupOpenPhase priceIds pb baseQty]) =
      (a :: b :: l) ++ [signupOpenPhase priceIds pb baseQty] from by simp]
  exact lastIsOpenEnded_concat priceIds pb baseQty (a :: b :: l)

/-- The exact shape of the signup phase list: the pre-anchor stub twice
(the source both pushes and unshifts it), one explicit-end-date phase per
in-horizon slice, and the trailing open-ended base-only phase. -/
theorem buildSignupPhases_phases_eq (services : List JsAddress)
    (selections : List Selection) (nowEpoch : Int) (priceIds : PriceIds) (pb : String) :
    (buildSignupPhases services selections nowEpoch priceIds pb).phases =
      signupPrePhase priceIds pb services.length
          (seasonalPreQtyAux nowEpoch (nextMonthFirstEpoch nowEpoch) services selections)
          (nextMonthFirstEpoch nowEpoch) ::
      signupPrePhase priceIds pb services.length
          (seasonalPreQtyAux nowEpoch (nextMonthFirstEpoch nowEpoch) services selections)
          (nextMonthFirstEpoch nowEpoch) ::
      (((buildTimeline services selections nowEpoch).filter (fun s =>
          decide (nextMonthFirstEpoch nowEpoch ≤ s.start) &&
          decide (s.start ≤ nextMonthFirstEpoch nowEpoch + NINETY_DAYS_SEC))).map
        (slicePhaseOf priceIds pb services.length) ++
        [signupOpenPhase priceIds pb services.length]) := by
  have hlt := lt_nextMonthFirstEpoch nowEpoch
  have hfm := filterMap_slicePhase priceIds pb services.length
    (nextMonthFirstEpoch nowEpoch)
    ((buildTimeline services selections nowEpoch).filter (fun s =>
      decide (nextMonthFirstEpoch nowEpoch ≤ s.start) &&
      decide (s.start ≤ nextMonthFirstEpoch nowEpoch + NINETY_DAYS_SEC)))
    (by
      intro s hs
      have h0 := (List.mem_filter.mp hs).2
      rcases Bool.and_eq_true_iff.mp h0 with ⟨h1, _⟩
      exact of_decide_eq_true h1)
  have hshape1 : ∀ (a : PhaseWithDuration) (l : List PhaseWithDuration)
      (o : PhaseWithDuration), a :: (([a] ++ l) ++ [o]) = (a :: a :: l) ++ [o] := by
    intros; simp
  unfold buildSignupPhases
  dsimp only
  rw [if_pos hlt, hfm, if_pos hlt]
  have hshape2 : ∀ (a b o : PhaseWithDuration) (l : List PhaseWithDuration),
      a :: b :: (l ++ [o]) = (a :: b :: l) ++ [o] := by
    intros; simp
  simp only [hshape1]
  simp only [lastIsOpenEnded_concat]
  simp [lastIsOpenEnded_cons2]

/-- C4.  For every input, `buildSignupPhases` returns a non-empty phase list
whose final element is open-ended (no end date, no month-count duration)
and carries exactly one line item: the base price with quantity equal to
the address count, and no seasonal item. -/
theorem buildSignupPhases_last_open_base (services : List JsAddress)
    (selections : List Selection) (nowEpoch : Int) (priceIds : PriceIds) (pb : String) :
    (buildSignupPhases services selections nowEpoch priceIds pb).phases ≠ [] ∧
    (buildSignupPhases services selections nowEpoch priceIds pb).phases.getLast? =
      some { end_date := none, duration := none,
             items := [⟨priceIds.base, services.length⟩],
             proration_behavior := pb } := by
  rw [buildSignupPhases_phases_eq]
  constructor
  · simp
  · rw [show signupPrePhase priceIds pb services.length
          (seasonalPreQtyAux nowEpoch (nextMonthFirstEpoch nowEpoch) services selections)
          (nextMonthFirstEpoch nowEpoch) ::
        signupPrePhase priceIds pb services.length
          (seasonalPreQtyAux nowEpoch (nextMonthFirstEpoch nowEpoch) services selections)
          (nextMonthFirstEpoch nowEpoch) ::
        (((buildTimeline services selections nowEpoch).filter (fun s =>
            decide (nextMonthFirstEpoch nowEpoch ≤ s.start) &&
            decide (s.start ≤ nextMonthFirstEpoch nowEpoch + NINETY_DAYS_SEC))).map
          (slicePhaseOf priceIds pb services.length) ++
          [signupOpenPhase priceIds pb services.length]) =
        (signupPrePhase priceIds pb services.length
          (seasonalPreQtyAux nowEpoch (nextMonthFirstEpoch nowEpoch) services selections)
          (nextMonthFirstEpoch nowEpoch) ::
        signupPrePhase priceIds pb services.length
          (seasonalPreQtyAux nowEpoch (nextMonthFirstEpoch nowEpoch) services selections)
          (nextMonthFirstEpoch nowEpoch) ::
        ((buildTimeline services selections nowEpoch).filter (fun s =>
            decide (nextMonthFirstEpoch nowEpoch ≤ s.start) &&
            decide (s.start ≤ nextMonthFirstEpoch nowEpoch + NINETY_DAYS_SEC))).map
          (slicePhaseOf priceIds pb services.length)) ++
          [signupOpenPhase priceIds pb services.length] from by simp]
    rw [List.getLast?_concat]
    rfl

/-- C2 (code bug).  At a concrete input with the anchor strictly after the
reference epoch, the pre-anchor stub phase (explicit end date at the
anchor) appears twice in the returned list: the source pushes it and then
unshifts it again. -/
theorem buildSignupPhases_stub_pushed_twice :
    signupSeasonal.phases.take 2 =
      [signupPrePhase exPriceIds "create_prorations" 1 0 may1_2025,
       signupPrePhase exPriceIds "create_prorations" 1 0 may1_2025] ∧
    apr15_2025 < may1_2025 ∧ signupSeasonal.nextFirst = may1_2025 ∧
    signupSeasonal.phases.length = 6 := by
  refine ⟨by decide, by decide, by decide, by decide⟩

/-- C5 counterexample: one address with the seasonal add-on unselected
yields three phases (the duplicated stub plus the open-ended tail), not
exactly one. -/
theorem singleAddress_not_single_phase :
    signupNoSeasonal.phases.length = 3 ∧ ¬ signupNoSeasonal.phases.length = 1 := by
  refine ⟨by decide, by decide⟩

/-- C5 amended.  One address with the seasonal add-on unselected yields the
pre-anchor stub twice (base-only, quantity 1, ending at the next month
start) followed by exactly one open-ended base-only phase of quantity 1. -/
theorem singleAddress_no_seasonal_shape (a : JsAddress) (sel : Selection)
    (nowEpoch : Int) (priceIds : PriceIds) (pb : String)
    (hsel : sel.seasonal_2nd = false) :
    (buildSignupPhases [a] [sel] nowEpoch priceIds pb).phases =
      [signupPrePhase priceIds pb 1 0 (nextMonthFirstEpoch nowEpoch),
       signupPrePhase priceIds pb 1 0 (nextMonthFirstEpoch nowEpoch),
       signupOpenPhase priceIds pb 1] := by
  have ht : buildTimeline [a] [sel] nowEpoch = [] := by
    simp [buildTimeline, collectWindows, buildTimelineWindows, hsel]
  have hq : seasonalPreQtyAux nowEpoch (nextMonthFirstEpoch nowEpoch) [a] [sel] = 0 := by
    simp [seasonalPreQtyAux, hsel]
  rw [buildSignupPhases_phases_eq, ht, hq]
  simp

/-- C5 amended witness. -/
theorem singleAddress_no_seasonal_shape_witness :
    (Selection.mk false).seasonal_2nd = false ∧
    (buildSignupPhases [surfCityAddress] [Selection.mk false] apr15_2025 exPriceIds
        "create_prorations").phases =
      [signupPrePhase exPriceIds "create_prorations" 1 0 (nextMonthFirstEpoch apr15_2025),
       signupPrePhase exPriceIds "create_prorations" 1 0 (nextMonthFirstEpoch apr15_2025),
       signupOpenPhase exPriceIds "create_prorations" 1] :=
  ⟨rfl, singleAddress_no_seasonal_shape surfCityAddress (Selection.mk false) apr15_2025
    exPriceIds "create_prorations" rfl⟩

/-- C6 counterexample: the timeline slice May 1 – June 1, 2025 starts at the
anchor, lies within the 90-day horizon, and spans exactly one calendar
month, yet its emitted phase (index 2, after the duplicated stub) carries
an explicit end date and no month-count duration; indeed no emitted phase
ever carries a duration. -/
theorem wholeMonth_slice_phase_has_end_date :
    (buildTimeline [surfCityAddress] [⟨true⟩] apr15_2025).head? =
      some ⟨may1_2025, jsDateUTCsec 2025 5 1, 1⟩ ∧
    may1_2025 = nextMonthFirstEpoch apr15_2025 ∧
    monthsBetweenEpochs may1_2025 (jsDateUTCsec 2025 5 1) = 1 ∧
    signupSeasonal.phases[2]? =
      some { end_date := some (jsDateUTCsec 2025 5 1), duration := none,
             items := [⟨"price_base", 1⟩, ⟨"price_seasonal", 1⟩],
             proration_behavior := "create_prorations" } ∧
    signupSeasonal.phases.all (fun p => decide (p.duration = none)) = true := by
  refine ⟨by decide, by decide, by decide, by decide, by decide⟩

/-- C6 amended.  Every timeline slice starting at or after the anchor and
within the 90-day horizon is emitted as a phase with an explicit end date
equal to the slice end and no month-count duration; its seasonal line item
is present exactly when the slice's active count is positive. -/
theorem slicePhases_explicit_end_date (services : List JsAddress)
    (selections : List Selection) (nowEpoch : Int) (priceIds : PriceIds) (pb : String) :
    ∀ s ∈ (buildTimeline services selections nowEpoch).filter (fun s =>
        decide (nextMonthFirstEpoch nowEpoch ≤ s.start) &&
        decide (s.start ≤ nextMonthFirstEpoch nowEpoch + NINETY_DAYS_SEC)),
      slicePhaseOf priceIds pb services.length s ∈
        (buildSignupPhases services selections nowEpoch priceIds pb).phases ∧
      (slicePhaseOf priceIds pb services.length s).end_date = some s.stop ∧
      (slicePhaseOf priceIds pb services.length s).duration = none ∧
      (0 < s.seasonalActiveCount →
        (⟨priceIds.seasonal, s.seasonalActiveCount⟩ : PhaseItem) ∈
          (slicePhaseOf priceIds pb services.length s).items) ∧
      (s.seasonalActiveCount = 0 →
        (slicePhaseOf priceIds pb services.length s).items =
          [⟨priceIds.base, services.length⟩]) := by
  intro s hs
  refine ⟨?_, rfl, rfl, ?_, ?_⟩
  · rw [buildSignupPhases_phases_eq]
    exact List.mem_cons_of_mem _ (List.mem_cons_of_mem _
      (List.mem_append_left _ (List.mem_map_of_mem _ hs)))
  · intro h
    simp [slicePhaseOf, h]
  · intro h
    simp [slicePhaseOf, h]

/-- C6 amended witness: the May 1 – June 1 slice of the Surf City example. -/
theorem slicePhases_explicit_end_date_witness :
    (⟨may1_2025, jsDateUTCsec 2025 5 1, 1⟩ : TimelineSlice) ∈
      (buildTimeline [surfCityAddress] [⟨true⟩] apr15_2025).filter (fun s =>
        decide (nextMonthFirstEpoch apr15_2025 ≤ s.start) &&
        decide (s.start ≤ nextMonthFirstEpoch apr15_2025 + NINETY_DAYS_SEC)) ∧
    (slicePhaseOf exPriceIds "create_prorations" 1 ⟨may1_2025, jsDateUTCsec 2025 5 1, 1⟩ ∈
        (buildSignupPhases [surfCityAddress] [⟨true⟩] apr15_2025 exPriceIds
          "create_prorations").phases ∧
      (slicePhaseOf exPriceIds "create_prorations" 1
        ⟨may1_2025, jsDateUTCsec 2025 5 1, 1⟩).end_date = some (jsDateUTCsec 2025 5 1) ∧
      (slicePhaseOf exPriceIds "create_prorations" 1
        ⟨may1_2025, jsDateUTCsec 2025 5 1, 1⟩).duration = none ∧
      (0 < (1 : Nat) →
        (⟨"price_seasonal", 1⟩ : PhaseItem) ∈
          (slicePhaseOf exPriceIds "create_prorations" 1
            ⟨may1_2025, jsDateUTCsec 2025 5 1, 1⟩).items) ∧
      ((1 : Nat) = 0 →
        (slicePhaseOf exPriceIds "create_prorations" 1
          ⟨may1_2025, jsDateUTCsec 2025 5 1, 1⟩).items = [⟨"price_base", 1⟩])) :=
  ⟨by decide, slicePhases_explicit_end_date [surfCityAddress] [⟨true⟩] apr15_2025
    exPriceIds "create_prorations" ⟨may1_2025, jsDateUTCsec 2025 5 1, 1⟩ (by decide)⟩

set_option maxRecDepth 40000 in
/-- C3 (code bug): twelve rules serialize to 745 characters of JSON, which
the encoder splits into two metadata chunks; each chunk alone is not valid
JSON, so the decoder's per-chunk parse fails and the round trip loses every
rule: decoding the encoded map yields `[]`, not the original list.  (The
round trip does hold below the chunking threshold, as the two-rule prefix
shows.) -/
theorem decode_encode_longRules_fails :
    (stringifyAddrRules longRules).length = 745 ∧
    (encodeAddrRulesMeta longRules).length = 2 ∧
    readAddrRulesFromMeta (encodeAddrRulesMeta longRules) = [] ∧
    longRules ≠ [] ∧
    readAddrRulesFromMeta (encodeAddrRulesMeta (longRules.take 2)) = longRules.take 2 := by
  refine ⟨by decide, by decide, by decide, by decide, by decide⟩

/-! ## Metadata update lemmas -/

theorem metaGet_metaSet_self (k v : String) :
    ∀ m : List (String × String), metaGet (metaSet m k v) k = some v := by
  intro m
  induction m with
  | nil => simp [metaGet, metaSet]
  | cons kv rest ih =>
      by_cases hb : (kv.1 == k) = true
      · simp [metaGet, metaSet, hb]
      · simp only [metaSet, if_neg hb]
        simp only [metaGet, List.find?_cons, hb]
        exact ih

theorem metaGet_metaSet_ne (k k' v : String) (hk : k ≠ k') :
    ∀ m : List (String × String), metaGet (metaSet m k' v) k = metaGet m k := by
  intro m
  have h4 : (k' == k) = false := by simp [Ne.symm hk]
  induction m with
  | nil => simp [metaGet, metaSet, h4]
  | cons kv rest ih =>
      by_cases hb : (kv.1 == k') = true
      · have h2 : kv.1 = k' := by simpa using hb
        simp [metaGet, metaSet, hb, h2, h4, List.find?_cons]
      · simp only [metaSet, if_neg hb]
        by_cases h3 : (kv.1 == k) = true
        · simp [metaGet, List.find?_cons, h3]
        · simp only [metaGet, List.find?_cons, h3] at ih ⊢
          exact ih

/-- C7.  The reconciler is idempotent: whenever `ensureScheduleAttached`
completes on a state, running it again on the resulting state returns that
state unchanged — the attachment flag written on completion (or the
schedule now linked) short-circuits every later invocation. -/
theorem ensureScheduleAttached_idempotent (st st' : StripeState)
    (h : ensureScheduleAttached st = Except.ok st') :
    ensureScheduleAttached st' = Except.ok st' := by
  unfold ensureScheduleAttached at h
  cases hsch : st.sub.schedule with
  | some sched =>
      rw [hsch] at h
      dsimp only at h
      by_cases hflag : metaGet st.sub.metadata "schedule_attached" ≠ some "1"
      · rw [if_pos hflag] at h
        have hst : st' = { st with sub := { st.sub with
            metadata := metaSet (metaSet st.sub.metadata "schedule_attached" "1")
              "schedule_id" sched.id } } := by
          cases h
          rfl
        subst hst
        have hget : metaGet (metaSet (metaSet st.sub.metadata "schedule_attached" "1")
            "schedule_id" sched.id) "schedule_attached" = some "1" := by
          rw [metaGet_metaSet_ne _ _ _ (by decide), metaGet_metaSet_self]
        unfold ensureScheduleAttached
        dsimp only
        rw [hsch]
        dsimp only
        rw [if_neg (by rw [hget]; exact fun hh => hh rfl)]
      · rw [if_neg hflag] at h
        have hst : st' = st := by cases h; rfl
        subst hst
        unfold ensureScheduleAttached
        rw [hsch]
        dsimp only
        rw [if_neg hflag]
  | none =>
      rw [hsch] at h
      dsimp only at h
      by_cases hflag : (metaGet st.sub.metadata "schedule_attached" == some "1") = true
      · rw [if_pos hflag] at h
        have hst : st' = st := by cases h; rfl
        subst hst
        unfold ensureScheduleAttached
        rw [hsch]
        dsimp only
        rw [if_pos hflag]
      · rw [if_neg hflag] at h
        unfold upsertScheduleFromSubscription at h
        dsimp only at h
        rw [if_neg hflag, hsch] at h
        rw [if_neg (show ¬((none : Option ScheduleObj).isSome = true) by simp)] at h
        by_cases hempty : (readAddrRulesFromMeta st.sub.metadata).isEmpty = true
        · rw [if_pos hempty] at h
          have hst : st' = st := by cases h; rfl
          subst hst
          unfold ensureScheduleAttached
          rw [hsch]
          dsimp only
          rw [if_neg hflag]
          unfold upsertScheduleFromSubscription
          dsimp only
          rw [if_neg hflag, hsch]
          rw [if_neg (show ¬((none : Option ScheduleObj).isSome = true) by simp)]
          rw [if_pos hempty]
        · rw [if_neg hempty] at h
          have hgetB : ∀ (m : List (String × String)) (stv idv : String),
              metaGet (metaSet (metaSet (metaSet m "schedule_attached" "1")
                "schedule_status" stv) "schedule_id" idv) "schedule_attached" = some "1" := by
            intro m stv idv
            rw [metaGet_metaSet_ne _ _ _ (by decide),
              metaGet_metaSet_ne _ _ _ (by decide), metaGet_metaSet_self]
          cases hstart : st.sub.currentPhase.start_date with
          | none =>
              rw [hstart] at h
              dsimp only at h
              exact absurd h (by simp)
          | some cs =>
              rw [hstart] at h
              dsimp only at h
              injection h with h2
              subst h2
              unfold ensureScheduleAttached
              dsimp only
              have hc' : ¬(metaGet (metaSet (metaSet (metaSet st.sub.metadata
                  "schedule_attached" "1") "schedule_status" "attached") "schedule_id"
                  st.freshScheduleId) "schedule_attached" ≠ some "1") :=
                fun hh => hh (hgetB _ _ _)
              rw [if_neg hc']


set_option maxRecDepth 40000 in
/-- C7 witness: a full rebuild from `altRulesState` followed by a second
invocation on its result. -/
theorem ensureScheduleAttached_idempotent_witness :
    ensureScheduleAttached altRulesState = Except.ok altRulesStateAfter ∧
    ensureScheduleAttached altRulesStateAfter = Except.ok altRulesStateAfter :=
  ⟨rfl, ensureScheduleAttached_idempotent altRulesState altRulesStateAfter rfl⟩

/-- C8.  Address resolution: the city (trimmed, lower-cased) is matched
case-insensitively against the table and a city match — the first in table
order — always wins; with no city match, among the rules whose zip prefix
matches the trimmed, 5-character-truncated postal code the longest prefix
wins; and the result is `none` exactly when no rule matches either way. -/
theorem resolveRuleForAddress_spec (addr : Address) (rules : List AreaRule) :
    (∀ r, rules.find? (cityMatches (norm addr.city)) = some r →
        resolveRuleForAddress addr rules =
          some { baseDay := r.baseDay, secondaryDay := r.secondaryDay,
                 season := r.season, matchedBy := "city", ruleNote := r.note }) ∧
    (rules.find? (cityMatches (norm addr.city)) = none →
      rules.filter (zipMatches (cleanZipStr addr.zip)) ≠ [] →
        ∃ r, r ∈ rules ∧ zipMatches (cleanZipStr addr.zip) r = true ∧
          (∀ r' ∈ rules, zipMatches (cleanZipStr addr.zip) r' = true →
            zipLen r' ≤ zipLen r) ∧
          resolveRuleForAddress addr rules =
            some { baseDay := r.baseDay, secondaryDay := r.secondaryDay,
                   season := r.season, matchedBy := "zipPrefix", ruleNote := r.note }) ∧
    (resolveRuleForAddress addr rules = none ↔
      rules.find? (cityMatches (norm addr.city)) = none ∧
      ∀ r ∈ rules, zipMatches (cleanZipStr addr.zip) r = false) := by
  refine ⟨?_, ?_, ?_⟩
  · intro r hr
    unfold resolveRuleForAddress
    dsimp only
    rw [hr]
  · intro hnone hne
    have hperm := List.perm_insertionSort zipPrefLonger
      (rules.filter (zipMatches (cleanZipStr addr.zip)))
    have hsorted := List.sorted_insertionSort zipPrefLonger
      (rules.filter (zipMatches (cleanZipStr addr.zip)))
    have hsne : List.insertionSort zipPrefLonger
        (rules.filter (zipMatches (cleanZipStr addr.zip))) ≠ [] := by
      intro h0
      rw [h0] at hperm
      exact hne (hperm.symm.eq_nil)
    obtain ⟨r0, tail, heq⟩ := List.exists_cons_of_ne_nil hsne
    have hr0f : r0 ∈ rules.filter (zipMatches (cleanZipStr addr.zip)) :=
      hperm.subset (heq ▸ List.mem_cons_self r0 tail)
    have hr0 := List.mem_filter.mp hr0f
    refine ⟨r0, hr0.1, hr0.2, ?_, ?_⟩
    · intro r' hr' hz'
      have hmem : r' ∈ List.insertionSort zipPrefLonger
          (rules.filter (zipMatches (cleanZipStr addr.zip))) :=
        hperm.symm.subset (List.mem_filter.mpr ⟨hr', hz'⟩)
      rw [heq] at hmem hsorted
      rcases List.mem_cons.mp hmem with h1 | h1
      · exact h1 ▸ Nat.le_refl _
      · exact List.rel_of_sorted_cons hsorted r' h1
    · unfold resolveRuleForAddress
      dsimp only
      rw [hnone, heq]
      simp only [List.head?_cons]
  · constructor
    · intro hres
      unfold resolveRuleForAddress at hres
      dsimp only at hres
      cases hfind : rules.find? (cityMatches (norm addr.city)) with
      | some r => rw [hfind] at hres; exact absurd hres (by simp)
      | none =>
          rw [hfind] at hres
          refine ⟨rfl, ?_⟩
          cases hh : (List.insertionSort zipPrefLonger
              (rules.filter (zipMatches (cleanZipStr addr.zip)))).head? with
          | some r => rw [hh] at hres; exact absurd hres (by simp)
          | none =>
              have hnil := List.head?_eq_none_iff.mp hh
              have hperm := List.perm_insertionSort zipPrefLonger
                (rules.filter (zipMatches (cleanZipStr addr.zip)))
              rw [hnil] at hperm
              have hfil := hperm.symm.eq_nil
              intro r hr
              by_contra hzb
              have hz : zipMatches (cleanZipStr addr.zip) r = true := by
                cases hzz : zipMatches (cleanZipStr addr.zip) r with
                | true => rfl
                | false => exact absurd hzz hzb
              have : r ∈ rules.filter (zipMatches (cleanZipStr addr.zip)) :=
                List.mem_filter.mpr ⟨hr, hz⟩
              rw [hfil] at this
              exact absurd this (List.not_mem_nil r)
    · intro ⟨hfind, hall⟩
      unfold resolveRuleForAddress
      dsimp only
      rw [hfind]
      have hfil : rules.filter (zipMatches (cleanZipStr addr.zip)) = [] := by
        rw [List.filter_eq_nil_iff]
        intro a ha
        rw [hall a ha]
        simp
      rw [hfil]
      rfl

/-- C8 witness: a city match through normalization, a longest-prefix zip
match, and a no-match address. -/
theorem resolveRuleForAddress_spec_witness :
    resolveRuleForAddress ⟨"1 Main", "  SURF city ", "NC", "28445"⟩ AREA_RULES =
      some { baseDay := 2, secondaryDay := some 5,
             season := some ⟨jsDateUTCsec 2025 4 1, jsDateUTCsec 2025 8 30⟩,
             matchedBy := "city", ruleNote := none } ∧
    (∃ r, r ∈ AREA_RULES ∧
      zipMatches (cleanZipStr (Address.mk "2 Main" "" "NC" " 28401-1234").zip) r = true ∧
      (∀ r' ∈ AREA_RULES,
        zipMatches (cleanZipStr (Address.mk "2 Main" "" "NC" " 28401-1234").zip) r' = true →
          zipLen r' ≤ zipLen r) ∧
      resolveRuleForAddress ⟨"2 Main", "", "NC", " 28401-1234"⟩ AREA_RULES =
        some { baseDay := r.baseDay, secondaryDay := r.secondaryDay,
               season := r.season, matchedBy := "zipPrefix", ruleNote := r.note }) ∧
    resolveRuleForAddress ⟨"3 Main", "Raleigh", "NC", "27601"⟩ AREA_RULES = none :=
  ⟨(resolveRuleForAddress_spec ⟨"1 Main", "  SURF city ", "NC", "28445"⟩ AREA_RULES).1
      { city := some "Surf City", baseDay := 2, secondaryDay := some 5,
        season := some ⟨jsDateUTCsec 2025 4 1, jsDateUTCsec 2025 8 30⟩ } (by decide),
   (resolveRuleForAddress_spec ⟨"2 Main", "", "NC", " 28401-1234"⟩ AREA_RULES).2.1
      (by decide) (by decide),
   ((resolveRuleForAddress_spec ⟨"3 Main", "Raleigh", "NC", "27601"⟩ AREA_RULES).2.2).mpr
      ⟨by decide, by decide⟩⟩

theorem upsert_schedule_phases (st st' : StripeState) (cs : Int) (sched : ScheduleObj)
    (hflag : (metaGet st.sub.metadata "schedule_attached" == some "1") = false)
    (hsch : st.sub.schedule = none)
    (hrules : (readAddrRulesFromMeta st.sub.metadata).isEmpty = false)
    (hstart : st.sub.currentPhase.start_date = some cs)
    (h : upsertScheduleFromSubscription st = Except.ok st')
    (hsched : st'.sub.schedule = some sched) :
    sched.phases = reconPublishedPhases st cs := by
  unfold upsertScheduleFromSubscription at h
  dsimp only at h
  rw [if_neg (show ¬((metaGet st.sub.metadata "schedule_attached" == some "1") = true)
    from by simp [hflag])] at h
  rw [hsch] at h
  rw [if_neg (show ¬((none : Option ScheduleObj).isSome = true) from by simp)] at h
  rw [if_neg (show ¬((readAddrRulesFromMeta st.sub.metadata).isEmpty = true)
    from by simp [hrules])] at h
  rw [hstart] at h
  dsimp only at h
  injection h with h2
  subst h2
  dsimp only at hsched
  injection hsched with h3
  subst h3
  unfold reconPublishedPhases
  dsimp only
  rw [hstart]

theorem reconPublishedPhases_len (st : StripeState) (cs : Int) :
    (reconPublishedPhases st cs).length =
      (consolidateSegments (reconSegments (reconWindows
        (readAddrRulesFromMeta st.sub.metadata)) cs)).length + 1 ∧
    (reconPublishedPhases st cs).getLast?.map PhaseUpdate.end_date = some none := by
  unfold reconPublishedPhases
  dsimp only
  by_cases hseg : (reconSegments (reconWindows
      (readAddrRulesFromMeta st.sub.metadata)) cs).isEmpty = true
  · rw [if_pos hseg]
    have hnil : reconSegments (reconWindows
        (readAddrRulesFromMeta st.sub.metadata)) cs = [] := by
      cases hc : reconSegments (reconWindows (readAddrRulesFromMeta st.sub.metadata)) cs with
      | nil => rfl
      | cons a l => rw [hc] at hseg; simp [List.isEmpty] at hseg
    rw [hnil]
    constructor
    · rfl
    · rfl
  · rw [if_neg hseg]
    cases hcons : consolidateSegments (reconSegments (reconWindows
        (readAddrRulesFromMeta st.sub.metadata)) cs) with
    | nil =>
        constructor
        · rfl
        · rfl
    | cons s0 rest =>
        constructor
        · simp [List.length_append, List.length_map]
        · rw [List.getLast?_concat]
          rfl

set_option maxRecDepth 40000 in
/-- C9 counterexample: with six alternating seasonal windows the
consolidated segment count is 11, so 12 phases would exceed a 10-phase
provider ceiling, yet the reconciler publishes all 12 phases — no
truncation at any cap takes place. -/
theorem recon_phase_cap_exceeded_applied :
    reconPhaseCount altRulesState = 12 ∧
    ¬ reconPhaseCount altRulesState ≤ 10 ∧
    (consolidateSegments (reconSegments (reconWindows (readAddrRulesFromMeta
      altRulesState.sub.metadata)) (jsDateUTCsec 2025 1 1))).length = 11 := by
  refine ⟨by decide, by decide, by decide⟩

/-- C9 amended.  The reconciler enforces no phase-count ceiling: on the
rebuild path it publishes exactly one phase per consolidated segment plus
one trailing phase, whatever that count is, and the published list is
terminally open-ended (its last phase has no end date). -/
theorem upsert_no_truncation (st st' : StripeState) (cs : Int) (sched : ScheduleObj)
    (hflag : (metaGet st.sub.metadata "schedule_attached" == some "1") = false)
    (hsch : st.sub.schedule = none)
    (hrules : (readAddrRulesFromMeta st.sub.metadata).isEmpty = false)
    (hstart : st.sub.currentPhase.start_date = some cs)
    (h : upsertScheduleFromSubscription st = Except.ok st')
    (hsched : st'.sub.schedule = some sched) :
    sched.phases.length =
      (consolidateSegments (reconSegments (reconWindows
        (readAddrRulesFromMeta st.sub.metadata)) cs)).length + 1 ∧
    sched.phases.getLast?.map PhaseUpdate.end_date = some none := by
  rw [upsert_schedule_phases st st' cs sched hflag hsch hrules hstart h hsched]
  exact reconPublishedPhases_len st cs

set_option maxRecDepth 40000 in
/-- C9 amended witness: the twelve-phase publication from `altRulesState`. -/
theorem upsert_no_truncation_witness :
    (metaGet altRulesState.sub.metadata "schedule_attached" == some "1") = false ∧
    altRulesState.sub.schedule = none ∧
    (readAddrRulesFromMeta altRulesState.sub.metadata).isEmpty = false ∧
    altRulesState.sub.currentPhase.start_date = some (jsDateUTCsec 2025 1 1) ∧
    (altRulesSchedule.phases.length =
      (consolidateSegments (reconSegments (reconWindows
        (readAddrRulesFromMeta altRulesState.sub.metadata))
        (jsDateUTCsec 2025 1 1))).length + 1 ∧
     altRulesSchedule.phases.getLast?.map PhaseUpdate.end_date = some none) :=
  ⟨by decide, rfl, by decide, rfl,
   upsert_no_truncation altRulesState altRulesStateAfter (jsDateUTCsec 2025 1 1)
     altRulesSchedule (by decide) rfl (by decide) rfl rfl rfl⟩

/-- C10.  On the reconciliation path a persisted compact rule contributes a
seasonal window only if its secondary-day field is not the `-1` sentinel and
its window is valid (`ss > 0`, `se > ss`); when every stored rule carries the
sentinel the recompute is skipped entirely (no windows), and the published
schedule is a single open-ended base-only phase with no seasonal item. -/
theorem recon_requires_secondary_day (st st' : StripeState) (cs : Int) (sched : ScheduleObj)
    (hall : ∀ r ∈ readAddrRulesFromMeta st.sub.metadata, r.s = -1)
    (hflag : (metaGet st.sub.metadata "schedule_attached" == some "1") = false)
    (hsch : st.sub.schedule = none)
    (hrules : (readAddrRulesFromMeta st.sub.metadata).isEmpty = false)
    (hstart : st.sub.currentPhase.start_date = some cs)
    (h : upsertScheduleFromSubscription st = Except.ok st')
    (hsched : st'.sub.schedule = some sched) :
    (∀ rules : List AddrRuleCompact, ∀ w ∈ reconWindows rules,
        ∃ r ∈ rules, r.s ≠ -1 ∧ 0 < r.ss ∧ r.ss < r.se ∧ w = ⟨r.ss, r.se⟩) ∧
    reconWindows (readAddrRulesFromMeta st.sub.metadata) = [] ∧
    ∃ bp bq, sched.phases =
      [{ start_date := some cs, end_date := none, items := [⟨bp, bq⟩],
         proration_behavior := "create_prorations" }] := by
  have hwin : reconWindows (readAddrRulesFromMeta st.sub.metadata) = [] := by
    unfold reconWindows
    rw [if_neg]
    intro hany
    obtain ⟨r, hrmem, hrp⟩ := List.any_eq_true.mp hany
    exact (of_decide_eq_true hrp) (hall r hrmem)
  refine ⟨?_, hwin, ?_⟩
  · intro rules w hw
    unfold reconWindows at hw
    by_cases hany : rules.any (fun r => decide (r.s ≠ -1)) = true
    · rw [if_pos hany] at hw
      obtain ⟨r, hrf, hre⟩ := List.mem_map.mp hw
      have hr := List.mem_filter.mp hrf
      have hp := hr.2
      simp only [Bool.and_eq_true, decide_eq_true_eq] at hp
      exact ⟨r, hr.1, hp.1.1, hp.1.2, hp.2, hre.symm⟩
    · rw [if_neg hany] at hw
      exact absurd hw (List.not_mem_nil w)
  · have hp := upsert_schedule_phases st st' cs sched hflag hsch hrules hstart h hsched
    rw [hp]
    unfold reconPublishedPhases
    dsimp only
    rw [hwin, hstart]
    exact ⟨_, _, rfl⟩

set_option maxRecDepth 40000 in
/-- C10 witness: a rule with a valid May–September window but secondary day
`-1` produces a single open-ended base-only phase. -/
theorem recon_requires_secondary_day_witness :
    (∀ r ∈ readAddrRulesFromMeta noSecState.sub.metadata, r.s = -1) ∧
    ((∀ rules : List AddrRuleCompact, ∀ w ∈ reconWindows rules,
        ∃ r ∈ rules, r.s ≠ -1 ∧ 0 < r.ss ∧ r.ss < r.se ∧ w = ⟨r.ss, r.se⟩) ∧
     reconWindows (readAddrRulesFromMeta noSecState.sub.metadata) = [] ∧
     ∃ bp bq, noSecSchedule.phases =
       [{ start_date := some (jsDateUTCsec 2025 1 1), end_date := none,
          items := [⟨bp, bq⟩], proration_behavior := "create_prorations" }]) :=
  ⟨by decide,
   recon_requires_secondary_day noSecState noSecStateAfter (jsDateUTCsec 2025 1 1)
     noSecSchedule (by decide) (by decide) rfl (by decide) rfl rfl rfl⟩
